import Mathlib

/-!
Shallow embedding of the crust scanner core:
  - crust_grammar/src/lib.rs  (module token: Token, try_as_keyword)
  - src/util.rs               (CrustCoreErr)
  - src/scanner.rs            (Scanner and its scan_tokens operation)

The source text is modelled as its list of UTF-8 bytes (the Rust code borrows
a &str and indexes it by byte offset).  A Rust panic (the scanner slices
one-byte ranges out of the string, which panics when the range does not fall
on character boundaries) is modelled as Option.none; every other outcome is
Option.some of the ordinary returned result.
-/

namespace Crust

/-- Token, from crust_grammar/src/lib.rs.  The f32 payload of Float is
abstracted to the exact decimal rational the lexeme denotes (IEEE rounding is
not modelled; no property below inspects a Float payload). -/
inductive Token where
  | LeftParen (offset line : Nat)
  | RightParen (offset line : Nat)
  | LeftBrace (offset line : Nat)
  | RightBrace (offset line : Nat)
  | Comma (offset line : Nat)
  | Dot (offset line : Nat)
  | Minus (offset line : Nat)
  | Plus (offset line : Nat)
  | Semicolon (offset line : Nat)
  | Slash (offset line : Nat)
  | Star (offset line : Nat)
  | Bang (offset line : Nat)
  | BangEqual (offset line : Nat)
  | Equal (offset line : Nat)
  | EqualEqual (offset line : Nat)
  | Greater (offset line : Nat)
  | GreaterEqual (offset line : Nat)
  | Less (offset line : Nat)
  | LessEqual (offset line : Nat)
  | BitAnd (offset line : Nat)
  | BitOr (offset line : Nat)
  | And (offset line : Nat)
  | Or (offset line : Nat)
  | Eof (offset line : Nat)
  | Class (offset line : Nat)
  | If (offset line : Nat)
  | Else (offset line : Nat)
  | True (offset line : Nat)
  | False (offset line : Nat)
  | Fn (offset line : Nat)
  | For (offset line : Nat)
  | Mut (offset line : Nat)
  | While (offset line : Nat)
  | Loop (offset line : Nat)
  | Break (offset line : Nat)
  | Return (offset line : Nat)
  | This (offset line : Nat)
  | Super (offset line : Nat)
  | Let (offset line : Nat)
  | Identifier (offset length line : Nat) (value : String)
  | String (offset length line : Nat) (value : String)
  | Float (offset length line : Nat) (value : Rat)
  | Integer (offset length line : Nat) (value : Int)
deriving DecidableEq

/-- CrustCoreErr, from src/util.rs. -/
inductive CrustCoreErr where
  | Multi (errors : List CrustCoreErr)
  | Scan (line : Nat) (message : String)
  | Runtime

/-- UTF-8 encoding of one code point (used to turn the concrete test inputs,
written as Lean string literals, into the byte buffers the scanner reads). -/
def utf8Char (c : Char) : List Nat :=
  let n := c.toNat
  if n < 128 then [n]
  else if n < 2048 then [192 + n / 64, 128 + n % 64]
  else if n < 65536 then [224 + n / 4096, 128 + (n / 64) % 64, 128 + n % 64]
  else [240 + n / 262144, 128 + (n / 4096) % 64, 128 + (n / 64) % 64, 128 + n % 64]

/-- UTF-8 byte buffer of a string. -/
def utf8 (s : String) : List Nat := s.data.flatMap utf8Char

/-- Scanner state, from src/scanner.rs (the tokens vector is carried in the
state; the errors vector, a local of scan_tokens passed by &mut, is threaded
separately). -/
structure ScanState where
  source : List Nat
  start : Nat
  current : Nat
  line : Nat
  tokens : List Token
deriving DecidableEq

/-- Scanner::char_at: self.source[index..index+1].chars().next().unwrap().
In a valid UTF-8 buffer both index and index+1 are character boundaries with
a whole character in between exactly when the byte at index is ASCII;
otherwise (or when index is out of range) the slice panics.  Panic is none. -/
def char_at (source : List Nat) (index : Nat) : Option Char :=
  match source.get? index with
  | some b => if b < 128 then some (Char.ofNat b) else none
  | none => none

/-- Scanner::is_at_end. -/
def is_at_end (st : ScanState) : Bool := st.source.length ≤ st.current

/-- Scanner::advance: increment current, read the character just passed. -/
def advance (st : ScanState) : Option (Char × ScanState) :=
  let st' : ScanState := { st with current := st.current + 1 }
  match char_at st'.source (st'.current - 1) with
  | some c => some (c, st')
  | none => none

/-- Scanner::advance_if: consume the next character only if it equals the
pattern; at end of input no read happens and the answer is false. -/
def advance_if (pattern : Char) (st : ScanState) : Option (Bool × ScanState) :=
  if is_at_end st then some (false, st)
  else
    match char_at st.source st.current with
    | some c =>
        if c = pattern then some (true, { st with current := st.current + 1 })
        else some (false, st)
    | none => none

/-- Scanner::peek: NUL at end of input, else the character at current. -/
def peek (st : ScanState) : Option Char :=
  if is_at_end st then some (Char.ofNat 0)
  else char_at st.source st.current

/-- Scanner::peek_next: NUL when current+1 is past the end, else the
character at current+1. -/
def peek_next (st : ScanState) : Option Char :=
  if st.source.length ≤ st.current + 1 then some (Char.ofNat 0)
  else char_at st.source (st.current + 1)

/-- Loop of the comment arm of Scanner::scan_token:
while peek() != the newline and not at end, advance. -/
def commentLoop (st : ScanState) : Option ScanState :=
  if is_at_end st then some st
  else
    match char_at st.source st.current with
    | none => none
    | some c =>
        if c = '\n' then some st
        else commentLoop { st with current := st.current + 1 }
termination_by st.source.length - st.current
decreasing_by simp_all [is_at_end]; omega

/-- Loop of Scanner::take_string_literal: while peek() is not a quote and not
at end, count newlines and advance. -/
def stringBody (st : ScanState) : Option ScanState :=
  if is_at_end st then some st
  else
    match char_at st.source st.current with
    | none => none
    | some c =>
        if c = '\"' then some st
        else
          stringBody { st with
            current := st.current + 1
            line := if c = '\n' then st.line + 1 else st.line }
termination_by st.source.length - st.current
decreasing_by simp_all [is_at_end]; omega

/-- Digit loop of Scanner::take_number_literal:
while peek().is_ascii_digit(), advance. -/
def digitsLoop (st : ScanState) : Option ScanState :=
  if is_at_end st then some st
  else
    match char_at st.source st.current with
    | none => none
    | some c =>
        if c.isDigit then digitsLoop { st with current := st.current + 1 }
        else some st
termination_by st.source.length - st.current
decreasing_by simp_all [is_at_end]; omega

/-- Decode a byte slice of the source as text.  Every slice the scanner turns
into a String payload was read byte-by-byte through char_at without a panic,
hence is pure ASCII, where UTF-8 decoding is one byte per character. -/
def bytesToString (bs : List Nat) : String := String.mk (bs.map Char.ofNat)

/-- ASCII digit test on a raw byte. -/
def isDigitByte (b : Nat) : Bool := 48 ≤ b && b ≤ 57

/-- Numeric value of a run of ASCII digit bytes. -/
def digitsVal (bs : List Nat) : Nat := bs.foldl (fun acc b => acc * 10 + (b - 48)) 0

/-- Models i32::from_str on a scanned integer lexeme.  take_number_literal
only reaches it with a nonempty all-digit lexeme, so the only failure mode is
positive overflow past i32::MAX = 2147483647. -/
def i32_from_str (bs : List Nat) : Option Int :=
  if digitsVal bs ≤ 2147483647 then some (digitsVal bs : Int) else none

/-- Models f32::from_str on a scanned float lexeme (digits, a dot, digits),
on which it always succeeds in Rust (overflow yields infinity); the value is
abstracted to the exact decimal rational the lexeme denotes. -/
def f32_from_str (bs : List Nat) : Option Rat :=
  let ip := bs.takeWhile isDigitByte
  let fp := (bs.drop ip.length).drop 1
  some ((digitsVal ip : Rat) + (digitsVal fp : Rat) / ((10 : Rat) ^ fp.length))

/-- Scanner::take_string_literal. -/
def take_string_literal (st : ScanState) : Option (Except CrustCoreErr Unit × ScanState) := do
  let st1 ← stringBody st
  if is_at_end st1 then
    pure (Except.error (CrustCoreErr.Scan st1.line ("Unterminated string literal")), st1)
  else do
    let (_, st2) ← advance st1
    let value := bytesToString ((st2.source.drop (st2.start + 1)).take
      (st2.current - 1 - (st2.start + 1)))
    pure (Except.ok (),
      { st2 with tokens := st2.tokens ++
          [Token.String st2.start (st2.current - st2.start) st2.line value] })

/-- Tail of Scanner::take_number_literal once the lexeme is delimited: slice
the literal out of the source, parse it as a float when it contains a dot and
as an integer otherwise, and push the token or report the parse error. -/
def finishNumber (st2 : ScanState) : Option (Except CrustCoreErr Unit × ScanState) :=
  let lit := (st2.source.drop st2.start).take (st2.current - st2.start)
  if lit.contains 46 then
    match f32_from_str lit with
    | some val =>
        pure (Except.ok (),
          { st2 with tokens := st2.tokens ++
              [Token.Float st2.start (st2.current - st2.start) st2.line val] })
    | none => pure (Except.error (CrustCoreErr.Scan st2.line ("Invalid float value")), st2)
  else
    match i32_from_str lit with
    | some val =>
        pure (Except.ok (),
          { st2 with tokens := st2.tokens ++
              [Token.Integer st2.start (st2.current - st2.start) st2.line val] })
    | none => pure (Except.error (CrustCoreErr.Scan st2.line ("Invalid integer value")), st2)

/-- Scanner::take_number_literal. -/
def take_number_literal (st : ScanState) : Option (Except CrustCoreErr Unit × ScanState) := do
  let st1 ← digitsLoop st
  let c ← peek st1
  if c = '.' then do
    let d ← peek_next st1
    if d.isDigit then do
      let (_, sta) ← advance st1
      let st2 ← digitsLoop sta
      finishNumber st2
    else finishNumber st1
  else finishNumber st1

/-- ASCII lowercasing, for the case-insensitive keyword match. -/
def asciiLower (c : Char) : Char :=
  if 65 ≤ c.toNat ∧ c.toNat ≤ 90 then Char.ofNat (c.toNat + 32) else c

/-- Lowercase every character of a string. -/
def lowerStr (s : String) : String := String.mk (s.data.map asciiLower)

/-- try_as_keyword, from crust_grammar/src/lib.rs.  TokenType::from_str is
the strum-derived ascii-case-insensitive match on variant names; the fifteen
keyword variants map to their tokens, and every other variant name, like any
unmatched text, yields None (the match's catch-all arm). -/
def try_as_keyword (text : String) (offset line : Nat) : Option Token :=
  let t := lowerStr text
  if t = "class" then some (Token.Class offset line)
  else if t = "if" then some (Token.If offset line)
  else if t = "else" then some (Token.Else offset line)
  else if t = "true" then some (Token.True offset line)
  else if t = "false" then some (Token.False offset line)
  else if t = "fn" then some (Token.Fn offset line)
  else if t = "for" then some (Token.For offset line)
  else if t = "mut" then some (Token.Mut offset line)
  else if t = "while" then some (Token.While offset line)
  else if t = "loop" then some (Token.Loop offset line)
  else if t = "break" then some (Token.Break offset line)
  else if t = "return" then some (Token.Return offset line)
  else if t = "this" then some (Token.This offset line)
  else if t = "super" then some (Token.Super offset line)
  else if t = "let" then some (Token.Let offset line)
  else none

/-- Scanner::scan_token: consume one character and dispatch on it.  The
errors vector (a local of scan_tokens, passed by &mut) is threaded
explicitly; arms that return the list unchanged record no error. -/
def scan_token (st : ScanState) (errors : List CrustCoreErr) :
    Option (ScanState × List CrustCoreErr) := do
  let (c, st) ← advance st
  if c = '(' then
    pure ({ st with tokens := st.tokens ++ [Token.LeftParen (st.current - 1) st.line] }, errors)
  else if c = ')' then
    pure ({ st with tokens := st.tokens ++ [Token.RightParen (st.current - 1) st.line] }, errors)
  else if c = '{' then
    pure ({ st with tokens := st.tokens ++ [Token.LeftBrace (st.current - 1) st.line] }, errors)
  else if c = '}' then
    pure ({ st with tokens := st.tokens ++ [Token.RightBrace (st.current - 1) st.line] }, errors)
  else if c = ',' then
    pure ({ st with tokens := st.tokens ++ [Token.Comma (st.current - 1) st.line] }, errors)
  else if c = '.' then
    pure ({ st with tokens := st.tokens ++ [Token.Dot (st.current - 1) st.line] }, errors)
  else if c = '-' then
    pure ({ st with tokens := st.tokens ++ [Token.Minus (st.current - 1) st.line] }, errors)
  else if c = '+' then
    pure ({ st with tokens := st.tokens ++ [Token.Plus (st.current - 1) st.line] }, errors)
  else if c = ';' then
    pure ({ st with tokens := st.tokens ++ [Token.Semicolon (st.current - 1) st.line] }, errors)
  else if c = '*' then
    pure ({ st with tokens := st.tokens ++ [Token.Star (st.current - 1) st.line] }, errors)
  else if c = '!' then do
    let (b, st) ← advance_if '=' st
    if b then
      pure ({ st with tokens := st.tokens ++ [Token.BangEqual (st.current - 2) st.line] }, errors)
    else
      pure ({ st with tokens := st.tokens ++ [Token.Bang (st.current - 1) st.line] }, errors)
  else if c = '=' then do
    let (b, st) ← advance_if '=' st
    if b then
      pure ({ st with tokens := st.tokens ++ [Token.EqualEqual (st.current - 2) st.line] }, errors)
    else
      pure ({ st with tokens := st.tokens ++ [Token.Equal (st.current - 1) st.line] }, errors)
  else if c = '<' then do
    let (b, st) ← advance_if '=' st
    if b then
      pure ({ st with tokens := st.tokens ++ [Token.LessEqual (st.current - 2) st.line] }, errors)
    else
      pure ({ st with tokens := st.tokens ++ [Token.Less (st.current - 1) st.line] }, errors)
  else if c = '>' then do
    let (b, st) ← advance_if '=' st
    if b then
      pure ({ st with tokens := st.tokens ++ [Token.GreaterEqual (st.current - 2) st.line] }, errors)
    else
      pure ({ st with tokens := st.tokens ++ [Token.Greater (st.current - 1) st.line] }, errors)
  else if c = '/' then do
    let (b, st) ← advance_if '/' st
    if b then do
      let st ← commentLoop st
      pure (st, errors)
    else
      pure ({ st with tokens := st.tokens ++ [Token.Slash (st.current - 1) st.line] }, errors)
  else if c.isDigit then do
    match ← take_number_literal st with
    | (Except.ok _, st) => pure (st, errors)
    | (Except.error e, st) => pure (st, errors ++ [e])
  else if c = ' ' ∨ c = '\t' ∨ c = '\r' then
    pure (st, errors)
  else if c = '\n' then
    pure ({ st with line := st.line + 1 }, errors)
  else if c = '\"' then do
    match ← take_string_literal st with
    | (Except.ok _, st) => pure (st, errors)
    | (Except.error e, st) => pure (st, errors ++ [e])
  else
    pure (st, errors ++ [CrustCoreErr.Scan st.line ("Unexpected character")])

/-- Byte offset at which a token's lexeme begins (the offset field every
Token constructor carries). -/
def tokenOffset : Token → Nat
  | .LeftParen o _ | .RightParen o _ | .LeftBrace o _ | .RightBrace o _
  | .Comma o _ | .Dot o _ | .Minus o _ | .Plus o _ | .Semicolon o _
  | .Slash o _ | .Star o _ | .Bang o _ | .BangEqual o _ | .Equal o _
  | .EqualEqual o _ | .Greater o _ | .GreaterEqual o _ | .Less o _
  | .LessEqual o _ | .BitAnd o _ | .BitOr o _ | .And o _ | .Or o _
  | .Eof o _ | .Class o _ | .If o _ | .Else o _ | .True o _ | .False o _
  | .Fn o _ | .For o _ | .Mut o _ | .While o _ | .Loop o _ | .Break o _
  | .Return o _ | .This o _ | .Super o _ | .Let o _ => o
  | .Identifier o _ _ _ | .String o _ _ _ | .Float o _ _ _ | .Integer o _ _ _ => o

/-- Line field of a token. -/
def tokenLine : Token → Nat
  | .LeftParen _ l | .RightParen _ l | .LeftBrace _ l | .RightBrace _ l
  | .Comma _ l | .Dot _ l | .Minus _ l | .Plus _ l | .Semicolon _ l
  | .Slash _ l | .Star _ l | .Bang _ l | .BangEqual _ l | .Equal _ l
  | .EqualEqual _ l | .Greater _ l | .GreaterEqual _ l | .Less _ l
  | .LessEqual _ l | .BitAnd _ l | .BitOr _ l | .And _ l | .Or _ l
  | .Eof _ l | .Class _ l | .If _ l | .Else _ l | .True _ l | .False _ l
  | .Fn _ l | .For _ l | .Mut _ l | .While _ l | .Loop _ l | .Break _ l
  | .Return _ l | .This _ l | .Super _ l | .Let _ l => l
  | .Identifier _ _ l _ | .String _ _ l _ | .Float _ _ l _ | .Integer _ _ l _ => l

/-- Byte span of a token's lexeme.  The source stores a length field only on
the four literal tokens; for fixed tokens the span is determined by the kind,
and the end-of-input marker spans zero bytes. -/
def tokenLength : Token → Nat
  | .LeftParen _ _ | .RightParen _ _ | .LeftBrace _ _ | .RightBrace _ _
  | .Comma _ _ | .Dot _ _ | .Minus _ _ | .Plus _ _ | .Semicolon _ _
  | .Slash _ _ | .Star _ _ | .Bang _ _ | .Equal _ _ | .Greater _ _
  | .Less _ _ | .BitAnd _ _ | .BitOr _ _ => 1
  | .BangEqual _ _ | .EqualEqual _ _ | .GreaterEqual _ _ | .LessEqual _ _
  | .Or _ _ | .If _ _ | .Fn _ _ => 2
  | .And _ _ | .For _ _ | .Mut _ _ | .Let _ _ => 3
  | .Eof _ _ => 0
  | .Else _ _ | .True _ _ | .Loop _ _ | .This _ _ => 4
  | .Class _ _ | .False _ _ | .While _ _ | .Break _ _ | .Super _ _ => 5
  | .Return _ _ => 6
  | .Identifier _ l _ _ | .String _ l _ _ | .Float _ l _ _ | .Integer _ l _ _ => l

/-- Is this token the end-of-input marker? -/
def isEof : Token → Bool
  | .Eof _ _ => true
  | _ => false

lemma char_at_lt {source : List Nat} {i : Nat} {c : Char}
    (h : char_at source i = some c) : i < source.length := by
  unfold char_at at h
  by_contra hle
  rw [List.get?_eq_none.mpr (by omega)] at h
  simp at h

lemma advance_spec {st : ScanState} {c : Char} {st' : ScanState}
    (h : advance st = some (c, st')) :
    st'.source = st.source ∧ st'.start = st.start ∧ st'.line = st.line ∧
    st'.tokens = st.tokens ∧ st'.current = st.current + 1 ∧
    st.current < st.source.length := by
  unfold advance at h
  simp only [Nat.add_sub_cancel] at h
  cases hc : char_at st.source st.current with
  | none => rw [hc] at h; simp at h
  | some c0 =>
      rw [hc] at h
      simp only [Option.some.injEq, Prod.mk.injEq] at h
      obtain ⟨-, hst⟩ := h
      subst hst
      exact ⟨rfl, rfl, rfl, rfl, rfl, char_at_lt hc⟩

lemma advance_if_spec {p : Char} {st : ScanState} {b : Bool} {st' : ScanState}
    (h : advance_if p st = some (b, st')) :
    st'.source = st.source ∧ st'.start = st.start ∧ st'.line = st.line ∧
    st'.tokens = st.tokens ∧
    (b = true → st'.current = st.current + 1 ∧ st.current < st.source.length) ∧
    (b = false → st'.current = st.current) := by
  unfold advance_if at h
  by_cases he : is_at_end st
  · rw [if_pos he] at h
    simp only [Option.some.injEq, Prod.mk.injEq] at h
    obtain ⟨hb, hst⟩ := h
    subst hst; subst hb
    exact ⟨rfl, rfl, rfl, rfl, fun hbt => absurd hbt (by simp), fun _ => rfl⟩
  · rw [if_neg he] at h
    cases hc : char_at st.source st.current with
    | none => rw [hc] at h; simp at h
    | some c =>
        rw [hc] at h
        dsimp only at h
        have hlt := char_at_lt hc
        by_cases hcp : c = p
        · rw [if_pos hcp] at h
          simp only [Option.some.injEq, Prod.mk.injEq] at h
          obtain ⟨hb, hst⟩ := h
          subst hst; subst hb
          exact ⟨rfl, rfl, rfl, rfl, fun _ => ⟨rfl, hlt⟩, fun hbf => absurd hbf (by simp)⟩
        · rw [if_neg hcp] at h
          simp only [Option.some.injEq, Prod.mk.injEq] at h
          obtain ⟨hb, hst⟩ := h
          subst hst; subst hb
          exact ⟨rfl, rfl, rfl, rfl, fun hbt => absurd hbt (by simp), fun _ => rfl⟩

lemma commentLoop_spec (st : ScanState) : ∀ st', commentLoop st = some st' →
    st'.source = st.source ∧ st'.start = st.start ∧ st'.tokens = st.tokens ∧
    st'.line = st.line ∧ st.current ≤ st'.current ∧
    (st.current ≤ st.source.length → st'.current ≤ st.source.length) := by
  induction st using commentLoop.induct with
  | case1 st hend =>
      intro st' h
      rw [commentLoop, if_pos hend] at h
      obtain rfl := Option.some.inj h
      exact ⟨rfl, rfl, rfl, rfl, le_refl _, fun hh => hh⟩
  | case2 st hend hc =>
      intro st' h
      rw [commentLoop, if_neg hend, hc] at h
      simp at h
  | case3 st hend hc =>
      intro st' h
      rw [commentLoop, if_neg hend, hc] at h
      simp only [if_pos rfl] at h
      obtain rfl := Option.some.inj h
      exact ⟨rfl, rfl, rfl, rfl, le_refl _, fun hh => hh⟩
  | case4 st hend c hc hnl ih =>
      intro st' h
      rw [commentLoop, if_neg hend, hc] at h
      dsimp only at h
      rw [if_neg hnl] at h
      obtain ⟨h1, h2, h3, h4, h5, h6⟩ := ih st' h
      dsimp only at h1 h2 h3 h4 h5 h6
      have hlt : st.current < st.source.length := by
        simp [is_at_end] at hend; omega
      exact ⟨h1, h2, h3, h4, by omega, fun _ => h6 (by omega)⟩

lemma digitsLoop_spec (st : ScanState) : ∀ st', digitsLoop st = some st' →
    st'.source = st.source ∧ st'.start = st.start ∧ st'.tokens = st.tokens ∧
    st'.line = st.line ∧ st.current ≤ st'.current ∧
    (st.current ≤ st.source.length → st'.current ≤ st.source.length) := by
  induction st using digitsLoop.induct with
  | case1 st hend =>
      intro st' h
      rw [digitsLoop, if_pos hend] at h
      obtain rfl := Option.some.inj h
      exact ⟨rfl, rfl, rfl, rfl, le_refl _, fun hh => hh⟩
  | case2 st hend hc =>
      intro st' h
      rw [digitsLoop, if_neg hend, hc] at h
      simp at h
  | case3 st hend c hc hd ih =>
      intro st' h
      rw [digitsLoop, if_neg hend, hc] at h
      dsimp only at h
      rw [if_pos hd] at h
      obtain ⟨h1, h2, h3, h4, h5, h6⟩ := ih st' h
      dsimp only at h1 h2 h3 h4 h5 h6
      have hlt : st.current < st.source.length := by
        simp [is_at_end] at hend; omega
      exact ⟨h1, h2, h3, h4, by omega, fun _ => h6 (by omega)⟩
  | case4 st hend c hc hd =>
      intro st' h
      rw [digitsLoop, if_neg hend, hc] at h
      dsimp only at h
      rw [if_neg hd] at h
      obtain rfl := Option.some.inj h
      exact ⟨rfl, rfl, rfl, rfl, le_refl _, fun hh => hh⟩

lemma stringBody_spec (st : ScanState) : ∀ st', stringBody st = some st' →
    st'.source = st.source ∧ st'.start = st.start ∧ st'.tokens = st.tokens ∧
    st.line ≤ st'.line ∧ st.current ≤ st'.current ∧
    (st.current ≤ st.source.length → st'.current ≤ st.source.length) := by
  induction st using stringBody.induct with
  | case1 st hend =>
      intro st' h
      rw [stringBody, if_pos hend] at h
      obtain rfl := Option.some.inj h
      exact ⟨rfl, rfl, rfl, le_refl _, le_refl _, fun hh => hh⟩
  | case2 st hend hc =>
      intro st' h
      rw [stringBody, if_neg hend, hc] at h
      simp at h
  | case3 st hend hc =>
      intro st' h
      rw [stringBody, if_neg hend, hc] at h
      simp only [if_pos rfl] at h
      obtain rfl := Option.some.inj h
      exact ⟨rfl, rfl, rfl, le_refl _, le_refl _, fun hh => hh⟩
  | case4 st hend c hc hq ih =>
      intro st' h
      rw [stringBody, if_neg hend, hc] at h
      dsimp only at h
      rw [if_neg hq] at h
      obtain ⟨h1, h2, h3, h4, h5, h6⟩ := ih st' h
      dsimp only at h1 h2 h3 h4 h5 h6
      have hlt : st.current < st.source.length := by
        simp [is_at_end] at hend; omega
      refine ⟨h1, h2, h3, ?_, by omega, fun _ => h6 (by omega)⟩
      by_cases hnl : c = '\n' <;> simp [hnl] at h4 <;> omega

lemma take_string_literal_spec {st : ScanState} {r : Except CrustCoreErr Unit}
    {st' : ScanState} (h : take_string_literal st = some (r, st'))
    (hss : st.start ≤ st.current) :
    st'.source = st.source ∧ st'.start = st.start ∧
    st.current ≤ st'.current ∧
    (st.current ≤ st.source.length → st'.current ≤ st.source.length) ∧
    st.line ≤ st'.line ∧
    ((r = Except.ok () ∧ ∃ u, st'.tokens = st.tokens ++ [u] ∧
        st.start ≤ tokenOffset u ∧ tokenOffset u + tokenLength u ≤ st'.current ∧
        isEof u = false) ∨
      (∃ l m, r = Except.error (CrustCoreErr.Scan l m) ∧ st.line ≤ l ∧
        l ≤ st'.line ∧ st'.tokens = st.tokens)) := by
  unfold take_string_literal at h
  obtain ⟨st1, hsb, h⟩ := Option.bind_eq_some.mp h
  obtain ⟨s1, s2, s3, s4, s5, s6⟩ := stringBody_spec st st1 hsb
  by_cases hend : is_at_end st1
  · rw [if_pos hend] at h
    injection h with hpair
    injection hpair with hr hst
    subst hr; subst hst
    exact ⟨s1, s2, s5, s6, s4, Or.inr ⟨st1.line, _, rfl, s4, le_refl _, s3⟩⟩
  · rw [if_neg hend] at h
    obtain ⟨⟨c2, st2⟩, hadv, h⟩ := Option.bind_eq_some.mp h
    dsimp only at h
    obtain ⟨a1, a2, a3, a4, a5, a6⟩ := advance_spec hadv
    injection h with hpair
    injection hpair with hr hst
    subst hr; subst hst
    have hlen : st1.source.length = st.source.length := by rw [s1]
    refine ⟨?_, ?_, ?_, ?_, ?_, Or.inl ⟨rfl,
      Token.String st2.start (st2.current - st2.start) st2.line
        (bytesToString ((st2.source.drop (st2.start + 1)).take
          (st2.current - 1 - (st2.start + 1)))), ?_, ?_, ?_, ?_⟩⟩
    · dsimp only; rw [a1, s1]
    · dsimp only; rw [a2, s2]
    · dsimp only; omega
    · dsimp only; intro hh; omega
    · dsimp only; omega
    · dsimp only; rw [a4, s3]
    · dsimp only [tokenOffset]; omega
    · dsimp only [tokenOffset, tokenLength]; omega
    · rfl

lemma finishNumber_spec {st2 : ScanState} {r : Except CrustCoreErr Unit}
    {st' : ScanState} (h : finishNumber st2 = some (r, st'))
    (hss : st2.start ≤ st2.current) :
    st'.source = st2.source ∧ st'.start = st2.start ∧ st'.current = st2.current ∧
    st'.line = st2.line ∧
    ((r = Except.ok () ∧ ∃ u, st'.tokens = st2.tokens ++ [u] ∧
        tokenOffset u = st2.start ∧ tokenOffset u + tokenLength u = st2.current ∧
        isEof u = false) ∨
      (∃ m, r = Except.error (CrustCoreErr.Scan st2.line m) ∧
        st'.tokens = st2.tokens)) := by
  unfold finishNumber at h
  by_cases hcontains :
      ((st2.source.drop st2.start).take (st2.current - st2.start)).contains 46
  · rw [if_pos hcontains] at h
    dsimp only [f32_from_str] at h
    injection h with hpair
    injection hpair with hr hst
    subst hr; subst hst
    refine ⟨rfl, rfl, rfl, rfl, Or.inl ⟨rfl, _, rfl, ?_, ?_, ?_⟩⟩
    · rfl
    · dsimp only [tokenOffset, tokenLength]; omega
    · rfl
  · rw [if_neg hcontains] at h
    unfold i32_from_str at h
    by_cases hof : digitsVal ((st2.source.drop st2.start).take (st2.current - st2.start))
        ≤ 2147483647
    · rw [if_pos hof] at h
      dsimp only at h
      injection h with hpair
      injection hpair with hr hst
      subst hr; subst hst
      refine ⟨rfl, rfl, rfl, rfl, Or.inl ⟨rfl, _, rfl, ?_, ?_, ?_⟩⟩
      · rfl
      · dsimp only [tokenOffset, tokenLength]; omega
      · rfl
    · rw [if_neg hof] at h
      dsimp only at h
      injection h with hpair
      injection hpair with hr hst
      subst hr; subst hst
      exact ⟨rfl, rfl, rfl, rfl, Or.inr ⟨_, rfl, rfl⟩⟩

lemma take_number_literal_spec {st : ScanState} {r : Except CrustCoreErr Unit}
    {st' : ScanState} (h : take_number_literal st = some (r, st'))
    (hss : st.start ≤ st.current) :
    st'.source = st.source ∧ st'.start = st.start ∧
    st.current ≤ st'.current ∧
    (st.current ≤ st.source.length → st'.current ≤ st.source.length) ∧
    st'.line = st.line ∧
    ((r = Except.ok () ∧ ∃ u, st'.tokens = st.tokens ++ [u] ∧
        st.start ≤ tokenOffset u ∧ tokenOffset u + tokenLength u ≤ st'.current ∧
        isEof u = false) ∨
      (∃ l m, r = Except.error (CrustCoreErr.Scan l m) ∧ st.line ≤ l ∧
        l ≤ st'.line ∧ st'.tokens = st.tokens)) := by
  unfold take_number_literal at h
  obtain ⟨st1, hd1, h⟩ := Option.bind_eq_some.mp h
  obtain ⟨d1, d2, d3, d4, d5, d6⟩ := digitsLoop_spec st st1 hd1
  obtain ⟨c, hpk, h⟩ := Option.bind_eq_some.mp h
  have final : ∀ mid : ScanState, finishNumber mid = some (r, st') →
      mid.source = st.source → mid.start = st.start → st.current ≤ mid.current →
      (st.current ≤ st.source.length → mid.current ≤ st.source.length) →
      mid.line = st.line → mid.tokens = st.tokens →
      st'.source = st.source ∧ st'.start = st.start ∧
      st.current ≤ st'.current ∧
      (st.current ≤ st.source.length → st'.current ≤ st.source.length) ∧
      st'.line = st.line ∧
      ((r = Except.ok () ∧ ∃ u, st'.tokens = st.tokens ++ [u] ∧
          st.start ≤ tokenOffset u ∧ tokenOffset u + tokenLength u ≤ st'.current ∧
          isEof u = false) ∨
        (∃ l m, r = Except.error (CrustCoreErr.Scan l m) ∧ st.line ≤ l ∧
          l ≤ st'.line ∧ st'.tokens = st.tokens)) := by
    intro mid hf e1 e2 e3 e4 e5 e6
    have hssm : mid.start ≤ mid.current := by omega
    obtain ⟨f1, f2, f3, f4, fcase⟩ := finishNumber_spec hf hssm
    refine ⟨by rw [f1, e1], by rw [f2, e2], by omega, by intro hh; omega,
      by rw [f4, e5], ?_⟩
    rcases fcase with ⟨hr, u, hu, huo, hul, hue⟩ | ⟨m, hr, hm⟩
    · exact Or.inl ⟨hr, u, by rw [hu, e6], by omega, by omega, hue⟩
    · exact Or.inr ⟨mid.line, m, hr, by omega, by omega, by rw [hm, e6]⟩
  by_cases hdot : c = '.'
  · rw [if_pos hdot] at h
    obtain ⟨d, hpn, h⟩ := Option.bind_eq_some.mp h
    by_cases hdig : d.isDigit
    · rw [if_pos hdig] at h
      obtain ⟨⟨ca, sta⟩, hadv, h⟩ := Option.bind_eq_some.mp h
      dsimp only at h
      obtain ⟨a1, a2, a3, a4, a5, a6⟩ := advance_spec hadv
      obtain ⟨st2, hd2, h⟩ := Option.bind_eq_some.mp h
      obtain ⟨e1, e2, e3, e4, e5, e6⟩ := digitsLoop_spec sta st2 hd2
      have L1 : st1.source.length = st.source.length := by rw [d1]
      have L2 : sta.source.length = st.source.length := by rw [a1, d1]
      refine final st2 h (by rw [e1, a1, d1]) (by rw [e2, a2, d2]) (by omega)
        ?_ (by rw [e4, a3, d4]) (by rw [e3, a4, d3])
      intro hh
      have h8 := e6 (by omega)
      omega
    · rw [if_neg hdig] at h
      exact final st1 h d1 d2 d5 d6 d4 d3
  · rw [if_neg hdot] at h
    exact final st1 h d1 d2 d5 d6 d4 d3

/-- Relation between the scanner state before and after one scan_token step:
the source and start are untouched, the cursor strictly advances but stays in
bounds, the line only grows, at most one non-end-of-input token is appended
(beginning at or after start and ending at or before the new cursor), and at
most one Scan error is appended, citing a line between the old and new line
counters. -/
def StepInv (st : ScanState) (errors : List CrustCoreErr) (st' : ScanState)
    (errors' : List CrustCoreErr) : Prop :=
  st'.source = st.source ∧ st'.start = st.start ∧
  st.current < st'.current ∧ st'.current ≤ st.source.length ∧
  st.line ≤ st'.line ∧
  (st'.tokens = st.tokens ∨ ∃ u, st'.tokens = st.tokens ++ [u] ∧
      st.start ≤ tokenOffset u ∧ tokenOffset u + tokenLength u ≤ st'.current ∧
      isEof u = false) ∧
  (errors' = errors ∨ ∃ l m, errors' = errors ++ [CrustCoreErr.Scan l m] ∧
      st.line ≤ l ∧ l ≤ st'.line)

lemma scan_token_step {st : ScanState} {errors errors' : List CrustCoreErr}
    {st' : ScanState} (h : scan_token st errors = some (st', errors'))
    (hss : st.start ≤ st.current) : StepInv st errors st' errors' := by
  unfold scan_token at h
  obtain ⟨⟨c, sta⟩, hadv, h⟩ := Option.bind_eq_some.mp h
  dsimp only at h
  obtain ⟨a1, a2, a3, a4, a5, a6⟩ := advance_spec hadv
  have La : sta.source.length = st.source.length := by rw [a1]
  have hpush : ∀ (stx : ScanState) (u : Token),
      ({ stx with tokens := stx.tokens ++ [u] } = st' ∧ errors = errors') →
      stx.source = st.source → stx.start = st.start → stx.tokens = st.tokens →
      stx.line = st.line → st.current < stx.current →
      stx.current ≤ st.source.length →
      isEof u = false → st.start ≤ tokenOffset u →
      tokenOffset u + tokenLength u ≤ stx.current →
      StepInv st errors st' errors' := by
    rintro stx u ⟨rfl, rfl⟩ e1 e2 e3 e4 e5 e6 hu1 hu2 hu3
    exact ⟨by dsimp only; rw [e1], by dsimp only; rw [e2], by dsimp only; omega,
      by dsimp only; omega, by dsimp only; omega,
      Or.inr ⟨u, by dsimp only; rw [e3], hu2, by dsimp only; omega, hu1⟩,
      Or.inl rfl⟩
  have hkeep : ∀ stx : ScanState,
      (stx = st' ∧ errors = errors') →
      stx.source = st.source → stx.start = st.start → stx.tokens = st.tokens →
      st.line ≤ stx.line → st.current < stx.current →
      stx.current ≤ st.source.length →
      StepInv st errors st' errors' := by
    rintro stx ⟨rfl, rfl⟩ e1 e2 e3 e4 e5 e6
    exact ⟨e1, e2, e5, e6, e4, Or.inl e3, Or.inl rfl⟩
  by_cases hc1 : c = '('
  · rw [if_pos hc1] at h
    injection h with hp; injection hp with h1 h2
    exact hpush sta _ ⟨h1, h2⟩ a1 a2 a4 a3 (by omega) (by omega) rfl
      (by dsimp only [tokenOffset]; omega) (by dsimp only [tokenOffset, tokenLength]; omega)
  rw [if_neg hc1] at h
  by_cases hc2 : c = ')'
  · rw [if_pos hc2] at h
    injection h with hp; injection hp with h1 h2
    exact hpush sta _ ⟨h1, h2⟩ a1 a2 a4 a3 (by omega) (by omega) rfl
      (by dsimp only [tokenOffset]; omega) (by dsimp only [tokenOffset, tokenLength]; omega)
  rw [if_neg hc2] at h
  by_cases hc3 : c = '{'
  · rw [if_pos hc3] at h
    injection h with hp; injection hp with h1 h2
    exact hpush sta _ ⟨h1, h2⟩ a1 a2 a4 a3 (by omega) (by omega) rfl
      (by dsimp only [tokenOffset]; omega) (by dsimp only [tokenOffset, tokenLength]; omega)
  rw [if_neg hc3] at h
  by_cases hc4 : c = '}'
  · rw [if_pos hc4] at h
    injection h with hp; injection hp with h1 h2
    exact hpush sta _ ⟨h1, h2⟩ a1 a2 a4 a3 (by omega) (by omega) rfl
      (by dsimp only [tokenOffset]; omega) (by dsimp only [tokenOffset, tokenLength]; omega)
  rw [if_neg hc4] at h
  by_cases hc5 : c = ','
  · rw [if_pos hc5] at h
    injection h with hp; injection hp with h1 h2
    exact hpush sta _ ⟨h1, h2⟩ a1 a2 a4 a3 (by omega) (by omega) rfl
      (by dsimp only [tokenOffset]; omega) (by dsimp only [tokenOffset, tokenLength]; omega)
  rw [if_neg hc5] at h
  by_cases hc6 : c = '.'
  · rw [if_pos hc6] at h
    injection h with hp; injection hp with h1 h2
    exact hpush sta _ ⟨h1, h2⟩ a1 a2 a4 a3 (by omega) (by omega) rfl
      (by dsimp only [tokenOffset]; omega) (by dsimp only [tokenOffset, tokenLength]; omega)
  rw [if_neg hc6] at h
  by_cases hc7 : c = '-'
  · rw [if_pos hc7] at h
    injection h with hp; injection hp with h1 h2
    exact hpush sta _ ⟨h1, h2⟩ a1 a2 a4 a3 (by omega) (by omega) rfl
      (by dsimp only [tokenOffset]; omega) (by dsimp only [tokenOffset, tokenLength]; omega)
  rw [if_neg hc7] at h
  by_cases hc8 : c = '+'
  · rw [if_pos hc8] at h
    injection h with hp; injection hp with h1 h2
    exact hpush sta _ ⟨h1, h2⟩ a1 a2 a4 a3 (by omega) (by omega) rfl
      (by dsimp only [tokenOffset]; omega) (by dsimp only [tokenOffset, tokenLength]; omega)
  rw [if_neg hc8] at h
  by_cases hc9 : c = ';'
  · rw [if_pos hc9] at h
    injection h with hp; injection hp with h1 h2
    exact hpush sta _ ⟨h1, h2⟩ a1 a2 a4 a3 (by omega) (by omega) rfl
      (by dsimp only [tokenOffset]; omega) (by dsimp only [tokenOffset, tokenLength]; omega)
  rw [if_neg hc9] at h
  by_cases hc10 : c = '*'
  · rw [if_pos hc10] at h
    injection h with hp; injection hp with h1 h2
    exact hpush sta _ ⟨h1, h2⟩ a1 a2 a4 a3 (by omega) (by omega) rfl
      (by dsimp only [tokenOffset]; omega) (by dsimp only [tokenOffset, tokenLength]; omega)
  rw [if_neg hc10] at h
  by_cases hc11 : c = '!'
  · rw [if_pos hc11] at h
    obtain ⟨⟨b, stb⟩, hif, h⟩ := Option.bind_eq_some.mp h
    dsimp only at h
    obtain ⟨i1, i2, i3, i4, i5, i6⟩ := advance_if_spec hif
    have Lb : stb.source.length = st.source.length := by rw [i1, a1]
    cases b with
    | true =>
        obtain ⟨j1, j2⟩ := i5 rfl
        rw [if_pos rfl] at h
        injection h with hp; injection hp with h1 h2
        exact hpush stb _ ⟨h1, h2⟩ (by rw [i1, a1]) (by rw [i2, a2]) (by rw [i4, a4])
          (by rw [i3, a3]) (by omega) (by omega) rfl
          (by dsimp only [tokenOffset]; omega)
          (by dsimp only [tokenOffset, tokenLength]; omega)
    | false =>
        have j1 := i6 rfl
        rw [if_neg Bool.false_ne_true] at h
        injection h with hp; injection hp with h1 h2
        exact hpush stb _ ⟨h1, h2⟩ (by rw [i1, a1]) (by rw [i2, a2]) (by rw [i4, a4])
          (by rw [i3, a3]) (by omega) (by omega) rfl
          (by dsimp only [tokenOffset]; omega)
          (by dsimp only [tokenOffset, tokenLength]; omega)
  rw [if_neg hc11] at h
  by_cases hc12 : c = '='
  · rw [if_pos hc12] at h
    obtain ⟨⟨b, stb⟩, hif, h⟩ := Option.bind_eq_some.mp h
    dsimp only at h
    obtain ⟨i1, i2, i3, i4, i5, i6⟩ := advance_if_spec hif
    have Lb : stb.source.length = st.source.length := by rw [i1, a1]
    cases b with
    | true =>
        obtain ⟨j1, j2⟩ := i5 rfl
        rw [if_pos rfl] at h
        injection h with hp; injection hp with h1 h2
        exact hpush stb _ ⟨h1, h2⟩ (by rw [i1, a1]) (by rw [i2, a2]) (by rw [i4, a4])
          (by rw [i3, a3]) (by omega) (by omega) rfl
          (by dsimp only [tokenOffset]; omega)
          (by dsimp only [tokenOffset, tokenLength]; omega)
    | false =>
        have j1 := i6 rfl
        rw [if_neg Bool.false_ne_true] at h
        injection h with hp; injection hp with h1 h2
        exact hpush stb _ ⟨h1, h2⟩ (by rw [i1, a1]) (by rw [i2, a2]) (by rw [i4, a4])
          (by rw [i3, a3]) (by omega) (by omega) rfl
          (by dsimp only [tokenOffset]; omega)
          (by dsimp only [tokenOffset, tokenLength]; omega)
  rw [if_neg hc12] at h
  by_cases hc13 : c = '<'
  · rw [if_pos hc13] at h
    obtain ⟨⟨b, stb⟩, hif, h⟩ := Option.bind_eq_some.mp h
    dsimp only at h
    obtain ⟨i1, i2, i3, i4, i5, i6⟩ := advance_if_spec hif
    have Lb : stb.source.length = st.source.length := by rw [i1, a1]
    cases b with
    | true =>
        obtain ⟨j1, j2⟩ := i5 rfl
        rw [if_pos rfl] at h
        injection h with hp; injection hp with h1 h2
        exact hpush stb _ ⟨h1, h2⟩ (by rw [i1, a1]) (by rw [i2, a2]) (by rw [i4, a4])
          (by rw [i3, a3]) (by omega) (by omega) rfl
          (by dsimp only [tokenOffset]; omega)
          (by dsimp only [tokenOffset, tokenLength]; omega)
    | false =>
        have j1 := i6 rfl
        rw [if_neg Bool.false_ne_true] at h
        injection h with hp; injection hp with h1 h2
        exact hpush stb _ ⟨h1, h2⟩ (by rw [i1, a1]) (by rw [i2, a2]) (by rw [i4, a4])
          (by rw [i3, a3]) (by omega) (by omega) rfl
          (by dsimp only [tokenOffset]; omega)
          (by dsimp only [tokenOffset, tokenLength]; omega)
  rw [if_neg hc13] at h
  by_cases hc14 : c = '>'
  · rw [if_pos hc14] at h
    obtain ⟨⟨b, stb⟩, hif, h⟩ := Option.bind_eq_some.mp h
    dsimp only at h
    obtain ⟨i1, i2, i3, i4, i5, i6⟩ := advance_if_spec hif
    have Lb : stb.source.length = st.source.length := by rw [i1, a1]
    cases b with
    | true =>
        obtain ⟨j1, j2⟩ := i5 rfl
        rw [if_pos rfl] at h
        injection h with hp; injection hp with h1 h2
        exact hpush stb _ ⟨h1, h2⟩ (by rw [i1, a1]) (by rw [i2, a2]) (by rw [i4, a4])
          (by rw [i3, a3]) (by omega) (by omega) rfl
          (by dsimp only [tokenOffset]; omega)
          (by dsimp only [tokenOffset, tokenLength]; omega)
    | false =>
        have j1 := i6 rfl
        rw [if_neg Bool.false_ne_true] at h
        injection h with hp; injection hp with h1 h2
        exact hpush stb _ ⟨h1, h2⟩ (by rw [i1, a1]) (by rw [i2, a2]) (by rw [i4, a4])
          (by rw [i3, a3]) (by omega) (by omega) rfl
          (by dsimp only [tokenOffset]; omega)
          (by dsimp only [tokenOffset, tokenLength]; omega)
  rw [if_neg hc14] at h
  by_cases hc15 : c = '/'
  · rw [if_pos hc15] at h
    obtain ⟨⟨b, stb⟩, hif, h⟩ := Option.bind_eq_some.mp h
    dsimp only at h
    obtain ⟨i1, i2, i3, i4, i5, i6⟩ := advance_if_spec hif
    have Lb : stb.source.length = st.source.length := by rw [i1, a1]
    cases b with
    | true =>
        obtain ⟨j1, j2⟩ := i5 rfl
        rw [if_pos rfl] at h
        obtain ⟨stc, hcl, h⟩ := Option.bind_eq_some.mp h
        obtain ⟨c1, c2, c3, c4, c5, c6⟩ := commentLoop_spec stb stc hcl
        injection h with hp; injection hp with h1 h2
        refine hkeep stc ⟨h1, h2⟩ (by rw [c1, i1, a1]) (by rw [c2, i2, a2])
          (by rw [c3, i4, a4]) (by rw [c4, i3, a3]) (by omega) ?_
        have Lc : stb.source.length = st.source.length := Lb
        have h8 := c6 (by omega)
        omega
    | false =>
        have j1 := i6 rfl
        rw [if_neg Bool.false_ne_true] at h
        injection h with hp; injection hp with h1 h2
        exact hpush stb _ ⟨h1, h2⟩ (by rw [i1, a1]) (by rw [i2, a2]) (by rw [i4, a4])
          (by rw [i3, a3]) (by omega) (by omega) rfl
          (by dsimp only [tokenOffset]; omega)
          (by dsimp only [tokenOffset, tokenLength]; omega)
  rw [if_neg hc15] at h
  by_cases hc16 : c.isDigit
  · rw [if_pos hc16] at h
    obtain ⟨⟨res, stn⟩, htn, h⟩ := Option.bind_eq_some.mp h
    obtain ⟨t1, t2, t3, t4, t5, t6⟩ := take_number_literal_spec htn (by omega)
    have Ln : stn.source.length = st.source.length := by rw [t1, a1]
    have h9 := t4 (by omega)
    cases res with
    | ok u0 =>
        cases u0
        dsimp only at h
        injection h with hp; injection hp with h1 h2
        subst h1; subst h2
        rcases t6 with ⟨-, u, hu, huo, hul, hue⟩ | ⟨l, m, hr, -, -, -⟩
        · exact ⟨by rw [t1, a1], by rw [t2, a2], by omega, by omega, by omega,
            Or.inr ⟨u, by rw [hu, a4], by omega, by omega, hue⟩, Or.inl rfl⟩
        · exact absurd hr (by simp)
    | error e =>
        dsimp only at h
        injection h with hp; injection hp with h1 h2
        subst h1; subst h2
        rcases t6 with ⟨hr, -⟩ | ⟨l, m, hr, hl1, hl2, htk⟩
        · exact absurd hr (by simp)
        · injection hr with he
          subst he
          exact ⟨by rw [t1, a1], by rw [t2, a2], by omega, by omega, by omega,
            Or.inl (by rw [htk, a4]), Or.inr ⟨l, m, rfl, by omega, by omega⟩⟩
  rw [if_neg hc16] at h
  by_cases hc17 : c = ' ' ∨ c = '\t' ∨ c = '\r'
  · rw [if_pos hc17] at h
    injection h with hp; injection hp with h1 h2
    exact hkeep sta ⟨h1, h2⟩ a1 a2 a4 (by omega) (by omega) (by omega)
  rw [if_neg hc17] at h
  by_cases hc18 : c = '\n'
  · rw [if_pos hc18] at h
    injection h with hp; injection hp with h1 h2
    exact hkeep _ ⟨h1, h2⟩ (by dsimp only; rw [a1]) (by dsimp only; rw [a2])
      (by dsimp only; rw [a4]) (by dsimp only; omega) (by dsimp only; omega)
      (by dsimp only; omega)
  rw [if_neg hc18] at h
  by_cases hc19 : c = '\"'
  · rw [if_pos hc19] at h
    obtain ⟨⟨res, stn⟩, hts, h⟩ := Option.bind_eq_some.mp h
    obtain ⟨t1, t2, t3, t4, t5, t6⟩ := take_string_literal_spec hts (by omega)
    have Ln : stn.source.length = st.source.length := by rw [t1, a1]
    have h9 := t4 (by omega)
    cases res with
    | ok u0 =>
        cases u0
        dsimp only at h
        injection h with hp; injection hp with h1 h2
        subst h1; subst h2
        rcases t6 with ⟨-, u, hu, huo, hul, hue⟩ | ⟨l, m, hr, -, -, -⟩
        · exact ⟨by rw [t1, a1], by rw [t2, a2], by omega, by omega, by omega,
            Or.inr ⟨u, by rw [hu, a4], by omega, by omega, hue⟩, Or.inl rfl⟩
        · exact absurd hr (by simp)
    | error e =>
        dsimp only at h
        injection h with hp; injection hp with h1 h2
        subst h1; subst h2
        rcases t6 with ⟨hr, -⟩ | ⟨l, m, hr, hl1, hl2, htk⟩
        · exact absurd hr (by simp)
        · injection hr with he
          subst he
          exact ⟨by rw [t1, a1], by rw [t2, a2], by omega, by omega, by omega,
            Or.inl (by rw [htk, a4]), Or.inr ⟨l, m, rfl, by omega, by omega⟩⟩
  rw [if_neg hc19] at h
  injection h with hp; injection hp with h1 h2
  subst h1; subst h2
  exact ⟨a1, a2, by omega, by omega, by omega, Or.inl a4,
    Or.inr ⟨sta.line, _, rfl, by omega, by omega⟩⟩

/-- Main loop of Scanner::scan_tokens: while not at end, set start := current
and run scan_token. -/
def scanLoop (st : ScanState) (errors : List CrustCoreErr) :
    Option (ScanState × List CrustCoreErr) :=
  if is_at_end st then some (st, errors)
  else
    match h : scan_token { st with start := st.current } errors with
    | none => none
    | some (st', errors') => scanLoop st' errors'
termination_by st.source.length - st.current
decreasing_by
  obtain ⟨e1, -, e3, -, -, -, -⟩ := scan_token_step h (le_refl _)
  have L : st'.source.length = st.source.length := by rw [e1]
  dsimp only at e3 L
  simp_all [is_at_end]
  omega

/-- Scanner::scan_tokens: scan the whole input, append the end-of-input
token, and return either the token sequence or the aggregate of all recorded
errors (discarding the tokens). -/
def scan_tokens (source : List Nat) : Option (Except CrustCoreErr (List Token)) :=
  match scanLoop { source := source, start := 0, current := 0, line := 1, tokens := [] } [] with
  | none => none
  | some (st, errors) =>
      let tokens := st.tokens ++ [Token.Eof st.current st.line]
      if errors.isEmpty then some (Except.ok tokens)
      else some (Except.error (CrustCoreErr.Multi errors))

/-- Offset monotonicity of a token list: every token begins at or after the
lower bound, and each subsequent token begins at or after the previous
token's offset plus its length. -/
def tokensOrdered : Nat → List Token → Prop
  | _, [] => True
  | lo, t :: ts => lo ≤ tokenOffset t ∧ tokensOrdered (tokenOffset t + tokenLength t) ts

/-- A scan error: the Scan constructor with a positive line number. -/
def isScanErr (e : CrustCoreErr) : Prop :=
  ∃ l m, e = CrustCoreErr.Scan l m ∧ 1 ≤ l

lemma tokensOrdered_append {lo : Nat} {ts : List Token} {u : Token}
    (h : tokensOrdered lo ts)
    (hb : ∀ t ∈ ts, tokenOffset t + tokenLength t ≤ tokenOffset u)
    (hlo : lo ≤ tokenOffset u) :
    tokensOrdered lo (ts ++ [u]) := by
  induction ts generalizing lo with
  | nil => exact ⟨hlo, trivial⟩
  | cons t ts ih =>
      exact ⟨h.1, ih h.2 (fun x hx => hb x (List.mem_cons_of_mem t hx))
        (hb t (List.mem_cons_self t ts))⟩

lemma scanLoop_eq_step {st : ScanState} {errs : List CrustCoreErr}
    {st' : ScanState} {errors' : List CrustCoreErr} (hend : ¬ is_at_end st = true)
    (hst : scan_token { st with start := st.current } errs = some (st', errors')) :
    scanLoop st errs = scanLoop st' errors' := by
  rw [scanLoop, if_neg hend]
  split
  next heq => rw [heq] at hst; exact absurd hst (by simp)
  next a b heq =>
    rw [heq] at hst
    injection hst with hp
    injection hp with h1 h2
    rw [h1, h2]

lemma scanLoop_inv (st : ScanState) (errors : List CrustCoreErr) :
    ∀ stF errsF, scanLoop st errors = some (stF, errsF) →
    tokensOrdered 0 st.tokens →
    (∀ t ∈ st.tokens, tokenOffset t + tokenLength t ≤ st.current) →
    (∀ t ∈ st.tokens, isEof t = false) →
    st.current ≤ st.source.length →
    1 ≤ st.line →
    (∀ e ∈ errors, isScanErr e) →
    stF.source = st.source ∧ stF.current = st.source.length ∧
    st.line ≤ stF.line ∧
    tokensOrdered 0 stF.tokens ∧
    (∀ t ∈ stF.tokens, tokenOffset t + tokenLength t ≤ stF.current) ∧
    (∀ t ∈ stF.tokens, isEof t = false) ∧
    (∀ e ∈ errsF, isScanErr e) ∧
    ∃ newErrs, errsF = errors ++ newErrs := by
  induction st, errors using scanLoop.induct with
  | case1 st errors hend =>
      intro stF errsF hloop hord hbnd heof hcur hline herr
      rw [scanLoop, if_pos hend] at hloop
      injection hloop with hp
      injection hp with h1 h2
      subst h1; subst h2
      simp only [is_at_end, decide_eq_true_eq] at hend
      exact ⟨rfl, by omega, le_refl _, hord, hbnd, heof, herr, [], by simp⟩
  | case2 st errors hend hnone =>
      intro stF errsF hloop hord hbnd heof hcur hline herr
      rw [scanLoop, if_neg hend] at hloop
      split at hloop
      · exact absurd hloop (by simp)
      · next a b heq => rw [heq] at hnone; exact absurd hnone (by simp)
  | case3 st errors hend st' errors' hst ih =>
      intro stF errsF hloop hord hbnd heof hcur hline herr
      rw [scanLoop_eq_step hend hst] at hloop
      obtain ⟨e1, e2, e3, e4, e5, e6, e7⟩ := scan_token_step hst (le_refl _)
      dsimp only at e1 e2 e3 e4 e5 e6 e7
      have L1 : st'.source.length = st.source.length := by rw [e1]
      have hord' : tokensOrdered 0 st'.tokens := by
        rcases e6 with he | ⟨u, hu, huo, hul, hue⟩
        · rw [he]; exact hord
        · rw [hu]
          exact tokensOrdered_append hord
            (fun t ht => le_trans (hbnd t ht) huo) (Nat.zero_le _)
      have hbnd' : ∀ t ∈ st'.tokens, tokenOffset t + tokenLength t ≤ st'.current := by
        rcases e6 with he | ⟨u, hu, huo, hul, hue⟩
        · rw [he]; intro t ht; exact le_trans (hbnd t ht) (by omega)
        · rw [hu]; intro t ht
          rcases List.mem_append.mp ht with ht1 | ht2
          · exact le_trans (hbnd t ht1) (by omega)
          · rw [List.mem_singleton.mp ht2]; exact hul
      have heof' : ∀ t ∈ st'.tokens, isEof t = false := by
        rcases e6 with he | ⟨u, hu, huo, hul, hue⟩
        · rw [he]; exact heof
        · rw [hu]; intro t ht
          rcases List.mem_append.mp ht with ht1 | ht2
          · exact heof t ht1
          · rw [List.mem_singleton.mp ht2]; exact hue
      have herr' : ∀ e ∈ errors', isScanErr e := by
        rcases e7 with he | ⟨l, m, he, hl1, hl2⟩
        · rw [he]; exact herr
        · rw [he]; intro e heIn
          rcases List.mem_append.mp heIn with h1 | h2
          · exact herr e h1
          · rw [List.mem_singleton.mp h2]; exact ⟨l, m, rfl, by omega⟩
      obtain ⟨f1, f2, f3, f4, f5, f6, f7, newErrs2, hnew2⟩ :=
        ih stF errsF hloop hord' hbnd' heof' (by omega) (by omega) herr'
      refine ⟨by rw [f1, e1], by omega, by omega, f4, f5, f6, f7, ?_⟩
      rcases e7 with he | ⟨l, m, he, -, -⟩
      · exact ⟨newErrs2, by rw [hnew2, he]⟩
      · exact ⟨[CrustCoreErr.Scan l m] ++ newErrs2, by rw [hnew2, he, List.append_assoc]⟩

lemma char_at_total {source : List Nat} {i : Nat} (hi : i < source.length)
    (hascii : ∀ b ∈ source, b < 128) : ∃ c, char_at source i = some c := by
  unfold char_at
  cases hg : source.get? i with
  | none => rw [List.get?_eq_none] at hg; omega
  | some b =>
      dsimp only
      rw [if_pos (hascii b (List.get?_mem hg))]
      exact ⟨_, rfl⟩

lemma advance_total {st : ScanState} (hlt : st.current < st.source.length)
    (hascii : ∀ b ∈ st.source, b < 128) : ∃ c sta, advance st = some (c, sta) := by
  unfold advance
  obtain ⟨c, hc⟩ := char_at_total hlt hascii
  dsimp only
  simp only [Nat.add_sub_cancel]
  rw [hc]
  exact ⟨c, _, rfl⟩

lemma advance_if_total (p : Char) (st : ScanState)
    (hascii : ∀ b ∈ st.source, b < 128) :
    ∃ b sta, advance_if p st = some (b, sta) := by
  unfold advance_if
  by_cases hat : is_at_end st
  · rw [if_pos hat]; exact ⟨_, _, rfl⟩
  · rw [if_neg hat]
    have hlt : st.current < st.source.length := by
      simp [is_at_end] at hat; omega
    obtain ⟨c, hc⟩ := char_at_total hlt hascii
    rw [hc]
    dsimp only
    by_cases hcp : c = p
    · rw [if_pos hcp]; exact ⟨_, _, rfl⟩
    · rw [if_neg hcp]; exact ⟨_, _, rfl⟩

lemma peek_total (st : ScanState) (hascii : ∀ b ∈ st.source, b < 128) :
    ∃ c, peek st = some c := by
  unfold peek
  by_cases hat : is_at_end st
  · rw [if_pos hat]; exact ⟨_, rfl⟩
  · rw [if_neg hat]
    exact char_at_total (by simp [is_at_end] at hat; omega) hascii

lemma peek_next_total (st : ScanState) (hascii : ∀ b ∈ st.source, b < 128) :
    ∃ c, peek_next st = some c := by
  unfold peek_next
  by_cases hat : st.source.length ≤ st.current + 1
  · rw [if_pos hat]; exact ⟨_, rfl⟩
  · rw [if_neg hat]
    exact char_at_total (by omega) hascii

lemma commentLoop_total (st : ScanState) :
    (∀ b ∈ st.source, b < 128) → ∃ stc, commentLoop st = some stc := by
  induction st using commentLoop.induct with
  | case1 st hend =>
      intro hascii
      exact ⟨st, by rw [commentLoop, if_pos hend]⟩
  | case2 st hend hc =>
      intro hascii
      have hlt : st.current < st.source.length := by
        simp [is_at_end] at hend; omega
      obtain ⟨c, hc2⟩ := char_at_total hlt hascii
      rw [hc] at hc2
      exact absurd hc2 (by simp)
  | case3 st hend hc =>
      intro hascii
      refine ⟨st, ?_⟩
      rw [commentLoop, if_neg hend, hc]
      dsimp only
      rw [if_pos rfl]
  | case4 st hend c hc hnl ih =>
      intro hascii
      obtain ⟨stc, hstc⟩ := ih hascii
      refine ⟨stc, ?_⟩
      rw [commentLoop, if_neg hend, hc]
      dsimp only
      rw [if_neg hnl]
      exact hstc

lemma stringBody_total (st : ScanState) :
    (∀ b ∈ st.source, b < 128) → ∃ stc, stringBody st = some stc := by
  induction st using stringBody.induct with
  | case1 st hend =>
      intro hascii
      exact ⟨st, by rw [stringBody, if_pos hend]⟩
  | case2 st hend hc =>
      intro hascii
      have hlt : st.current < st.source.length := by
        simp [is_at_end] at hend; omega
      obtain ⟨c, hc2⟩ := char_at_total hlt hascii
      rw [hc] at hc2
      exact absurd hc2 (by simp)
  | case3 st hend hc =>
      intro hascii
      refine ⟨st, ?_⟩
      rw [stringBody, if_neg hend, hc]
      dsimp only
      rw [if_pos rfl]
  | case4 st hend c hc hq ih =>
      intro hascii
      obtain ⟨stc, hstc⟩ := ih hascii
      refine ⟨stc, ?_⟩
      rw [stringBody, if_neg hend, hc]
      dsimp only
      rw [if_neg hq]
      exact hstc

lemma digitsLoop_total (st : ScanState) :
    (∀ b ∈ st.source, b < 128) → ∃ stc, digitsLoop st = some stc := by
  induction st using digitsLoop.induct with
  | case1 st hend =>
      intro hascii
      exact ⟨st, by rw [digitsLoop, if_pos hend]⟩
  | case2 st hend hc =>
      intro hascii
      have hlt : st.current < st.source.length := by
        simp [is_at_end] at hend; omega
      obtain ⟨c, hc2⟩ := char_at_total hlt hascii
      rw [hc] at hc2
      exact absurd hc2 (by simp)
  | case3 st hend c hc hd ih =>
      intro hascii
      obtain ⟨stc, hstc⟩ := ih hascii
      refine ⟨stc, ?_⟩
      rw [digitsLoop, if_neg hend, hc]
      dsimp only
      rw [if_pos hd]
      exact hstc
  | case4 st hend c hc hd =>
      intro hascii
      refine ⟨st, ?_⟩
      rw [digitsLoop, if_neg hend, hc]
      dsimp only
      rw [if_neg hd]

lemma finishNumber_total (st2 : ScanState) :
    ∃ r st', finishNumber st2 = some (r, st') := by
  unfold finishNumber
  by_cases hcontains :
      ((st2.source.drop st2.start).take (st2.current - st2.start)).contains 46
  · rw [if_pos hcontains]
    dsimp only [f32_from_str]
    exact ⟨_, _, rfl⟩
  · rw [if_neg hcontains]
    unfold i32_from_str
    by_cases hof : digitsVal ((st2.source.drop st2.start).take
        (st2.current - st2.start)) ≤ 2147483647
    · rw [if_pos hof]; exact ⟨_, _, rfl⟩
    · rw [if_neg hof]; exact ⟨_, _, rfl⟩

lemma take_string_literal_total (st : ScanState)
    (hascii : ∀ b ∈ st.source, b < 128) :
    ∃ r st', take_string_literal st = some (r, st') := by
  unfold take_string_literal
  obtain ⟨st1, h1⟩ := stringBody_total st hascii
  obtain ⟨s1, s2, s3, s4, s5, s6⟩ := stringBody_spec st st1 h1
  rw [h1]
  simp only [Option.bind_eq_bind, Option.some_bind]
  by_cases hat : is_at_end st1
  · rw [if_pos hat]; exact ⟨_, _, rfl⟩
  · rw [if_neg hat]
    have hlt : st1.current < st1.source.length := by
      simp [is_at_end] at hat; omega
    obtain ⟨c2, st2, hadv⟩ := advance_total hlt (s1 ▸ hascii)
    rw [hadv]; simp only [Option.bind_eq_bind, Option.some_bind]
    exact ⟨_, _, rfl⟩

lemma take_number_literal_total (st : ScanState)
    (hascii : ∀ b ∈ st.source, b < 128) :
    ∃ r st', take_number_literal st = some (r, st') := by
  unfold take_number_literal
  obtain ⟨st1, h1⟩ := digitsLoop_total st hascii
  obtain ⟨d1, d2, d3, d4, d5, d6⟩ := digitsLoop_spec st st1 h1
  rw [h1]; simp only [Option.bind_eq_bind, Option.some_bind]
  obtain ⟨c, hpk⟩ := peek_total st1 (d1 ▸ hascii)
  rw [hpk]; simp only [Option.bind_eq_bind, Option.some_bind]
  by_cases hdot : c = '.'
  · rw [if_pos hdot]
    obtain ⟨d, hpn⟩ := peek_next_total st1 (d1 ▸ hascii)
    rw [hpn]; simp only [Option.bind_eq_bind, Option.some_bind]
    by_cases hdig : d.isDigit
    · rw [if_pos hdig]
      have hlt : st1.current < st1.source.length := by
        by_cases hat : is_at_end st1
        · rw [peek, if_pos hat] at hpk
          injection hpk with hc0
          rw [← hc0] at hdot
          exact absurd hdot (by decide)
        · simp [is_at_end] at hat; omega
      obtain ⟨c2, sta, hadv⟩ := advance_total hlt (d1 ▸ hascii)
      rw [hadv]; simp only [Option.bind_eq_bind, Option.some_bind]
      obtain ⟨a1, -, -, -, -, -⟩ := advance_spec hadv
      obtain ⟨st2, h2⟩ := digitsLoop_total sta ((a1.trans d1) ▸ hascii)
      rw [h2]; simp only [Option.bind_eq_bind, Option.some_bind]
      exact finishNumber_total st2
    · rw [if_neg hdig]
      exact finishNumber_total st1
  · rw [if_neg hdot]
    exact finishNumber_total st1

lemma scan_token_total (st : ScanState) (errors : List CrustCoreErr)
    (hne : ¬ is_at_end st = true) (hascii : ∀ b ∈ st.source, b < 128) :
    ∃ st' errors', scan_token st errors = some (st', errors') := by
  unfold scan_token
  have hlt : st.current < st.source.length := by
    simp [is_at_end] at hne; omega
  obtain ⟨c, sta, hadv⟩ := advance_total hlt hascii
  obtain ⟨a1, -, -, -, -, -⟩ := advance_spec hadv
  have hasciiA : ∀ b ∈ sta.source, b < 128 := a1 ▸ hascii
  rw [hadv]
  simp only [Option.bind_eq_bind, Option.some_bind]
  by_cases hc1 : c = '('
  · rw [if_pos hc1]
    exact ⟨_, _, rfl⟩
  rw [if_neg hc1]
  by_cases hc2 : c = ')'
  · rw [if_pos hc2]
    exact ⟨_, _, rfl⟩
  rw [if_neg hc2]
  by_cases hc3 : c = '{'
  · rw [if_pos hc3]
    exact ⟨_, _, rfl⟩
  rw [if_neg hc3]
  by_cases hc4 : c = '}'
  · rw [if_pos hc4]
    exact ⟨_, _, rfl⟩
  rw [if_neg hc4]
  by_cases hc5 : c = ','
  · rw [if_pos hc5]
    exact ⟨_, _, rfl⟩
  rw [if_neg hc5]
  by_cases hc6 : c = '.'
  · rw [if_pos hc6]
    exact ⟨_, _, rfl⟩
  rw [if_neg hc6]
  by_cases hc7 : c = '-'
  · rw [if_pos hc7]
    exact ⟨_, _, rfl⟩
  rw [if_neg hc7]
  by_cases hc8 : c = '+'
  · rw [if_pos hc8]
    exact ⟨_, _, rfl⟩
  rw [if_neg hc8]
  by_cases hc9 : c = ';'
  · rw [if_pos hc9]
    exact ⟨_, _, rfl⟩
  rw [if_neg hc9]
  by_cases hc10 : c = '*'
  · rw [if_pos hc10]
    exact ⟨_, _, rfl⟩
  rw [if_neg hc10]
  by_cases hc11 : c = '!'
  · rw [if_pos hc11]
    obtain ⟨b, stb, hif⟩ := advance_if_total '=' sta hasciiA
    rw [hif]
    simp only [Option.bind_eq_bind, Option.some_bind]
    cases b
    · rw [if_neg Bool.false_ne_true]; exact ⟨_, _, rfl⟩
    · rw [if_pos rfl]; exact ⟨_, _, rfl⟩
  rw [if_neg hc11]
  by_cases hc12 : c = '='
  · rw [if_pos hc12]
    obtain ⟨b, stb, hif⟩ := advance_if_total '=' sta hasciiA
    rw [hif]
    simp only [Option.bind_eq_bind, Option.some_bind]
    cases b
    · rw [if_neg Bool.false_ne_true]; exact ⟨_, _, rfl⟩
    · rw [if_pos rfl]; exact ⟨_, _, rfl⟩
  rw [if_neg hc12]
  by_cases hc13 : c = '<'
  · rw [if_pos hc13]
    obtain ⟨b, stb, hif⟩ := advance_if_total '=' sta hasciiA
    rw [hif]
    simp only [Option.bind_eq_bind, Option.some_bind]
    cases b
    · rw [if_neg Bool.false_ne_true]; exact ⟨_, _, rfl⟩
    · rw [if_pos rfl]; exact ⟨_, _, rfl⟩
  rw [if_neg hc13]
  by_cases hc14 : c = '>'
  · rw [if_pos hc14]
    obtain ⟨b, stb, hif⟩ := advance_if_total '=' sta hasciiA
    rw [hif]
    simp only [Option.bind_eq_bind, Option.some_bind]
    cases b
    · rw [if_neg Bool.false_ne_true]; exact ⟨_, _, rfl⟩
    · rw [if_pos rfl]; exact ⟨_, _, rfl⟩
  rw [if_neg hc14]
  by_cases hc15 : c = '/'
  · rw [if_pos hc15]
    obtain ⟨b, stb, hif⟩ := advance_if_total '/' sta hasciiA
    obtain ⟨i1, -, -, -, -, -⟩ := advance_if_spec hif
    rw [hif]
    simp only [Option.bind_eq_bind, Option.some_bind]
    cases b
    · rw [if_neg Bool.false_ne_true]; exact ⟨_, _, rfl⟩
    · rw [if_pos rfl]
      obtain ⟨stc, hcl⟩ := commentLoop_total stb (i1 ▸ hasciiA)
      rw [hcl]
      simp only [Option.bind_eq_bind, Option.some_bind]
      exact ⟨_, _, rfl⟩
  rw [if_neg hc15]
  by_cases hc16 : c.isDigit
  · rw [if_pos hc16]
    obtain ⟨r, stn, htn⟩ := take_number_literal_total sta hasciiA
    rw [htn]
    simp only [Option.bind_eq_bind, Option.some_bind]
    cases r with
    | ok u0 => cases u0; exact ⟨_, _, rfl⟩
    | error e => exact ⟨_, _, rfl⟩
  rw [if_neg hc16]
  by_cases hc17 : c = ' ' ∨ c = '\t' ∨ c = '\r'
  · rw [if_pos hc17]
    exact ⟨_, _, rfl⟩
  rw [if_neg hc17]
  by_cases hc18 : c = '\n'
  · rw [if_pos hc18]
    exact ⟨_, _, rfl⟩
  rw [if_neg hc18]
  by_cases hc19 : c = '\"'
  · rw [if_pos hc19]
    obtain ⟨r, stn, htn⟩ := take_string_literal_total sta hasciiA
    rw [htn]
    simp only [Option.bind_eq_bind, Option.some_bind]
    cases r with
    | ok u0 => cases u0; exact ⟨_, _, rfl⟩
    | error e => exact ⟨_, _, rfl⟩
  rw [if_neg hc19]
  exact ⟨_, _, rfl⟩

lemma scanLoop_total (st : ScanState) (errors : List CrustCoreErr) :
    (∀ b ∈ st.source, b < 128) → ∃ res, scanLoop st errors = some res := by
  induction st, errors using scanLoop.induct with
  | case1 st errors hend =>
      intro hascii
      exact ⟨_, by rw [scanLoop, if_pos hend]⟩
  | case2 st errors hend hnone =>
      intro hascii
      obtain ⟨st', errors', hsome⟩ := scan_token_total
        { st with start := st.current } errors hend hascii
      rw [hsome] at hnone
      exact absurd hnone (by simp)
  | case3 st errors hend st' errors' hst ih =>
      intro hascii
      obtain ⟨e1, -, -, -, -, -, -⟩ := scan_token_step hst (le_refl _)
      rw [scanLoop_eq_step hend hst]
      exact ih (e1 ▸ hascii)

lemma scan_tokens_total (source : List Nat) (hascii : ∀ b ∈ source, b < 128) :
    ∃ res, scan_tokens source = some res := by
  unfold scan_tokens
  obtain ⟨⟨st, errors⟩, hloop⟩ := scanLoop_total
    { source := source, start := 0, current := 0, line := 1, tokens := [] } [] hascii
  rw [hloop]
  dsimp only
  by_cases he : errors.isEmpty
  · rw [if_pos he]; exact ⟨_, rfl⟩
  · rw [if_neg he]; exact ⟨_, rfl⟩

lemma scan_tokens_run {source : List Nat} {st : ScanState}
    {errors : List CrustCoreErr}
    (hloop : scanLoop
      { source := source, start := 0, current := 0, line := 1, tokens := [] }
      [] = some (st, errors)) :
    (errors = [] → scan_tokens source =
      some (Except.ok (st.tokens ++ [Token.Eof st.current st.line]))) ∧
    (errors ≠ [] → scan_tokens source =
      some (Except.error (CrustCoreErr.Multi errors))) := by
  constructor <;> intro he <;> unfold scan_tokens <;> rw [hloop] <;> dsimp only
  · rw [if_pos (by simp [he])]
  · rw [if_neg (by simpa [List.isEmpty_iff] using he)]

lemma scan_tokens_some_inv {source : List Nat} {res : Except CrustCoreErr (List Token)}
    (h : scan_tokens source = some res) :
    ∃ st errors, scanLoop
        { source := source, start := 0, current := 0, line := 1, tokens := [] }
        [] = some (st, errors) ∧
      ((errors = [] ∧ res = Except.ok (st.tokens ++ [Token.Eof st.current st.line])) ∨
        (errors ≠ [] ∧ res = Except.error (CrustCoreErr.Multi errors))) := by
  unfold scan_tokens at h
  cases hloop : scanLoop
      { source := source, start := 0, current := 0, line := 1, tokens := [] } [] with
  | none => rw [hloop] at h; exact absurd h (by simp)
  | some p =>
      obtain ⟨st, errors⟩ := p
      rw [hloop] at h
      dsimp only at h
      by_cases he : errors.isEmpty
      · rw [if_pos he] at h
        injection h with h1
        exact ⟨st, errors, rfl, Or.inl ⟨by simpa [List.isEmpty_iff] using he, h1.symm⟩⟩
      · rw [if_neg he] at h
        injection h with h1
        exact ⟨st, errors, rfl, Or.inr ⟨by simpa [List.isEmpty_iff] using he, h1.symm⟩⟩

lemma scan_run_facts {source : List Nat} {st : ScanState}
    {errors : List CrustCoreErr}
    (hloop : scanLoop
      { source := source, start := 0, current := 0, line := 1, tokens := [] }
      [] = some (st, errors)) :
    st.source = source ∧ st.current = source.length ∧ 1 ≤ st.line ∧
    tokensOrdered 0 st.tokens ∧
    (∀ t ∈ st.tokens, tokenOffset t + tokenLength t ≤ st.current) ∧
    (∀ t ∈ st.tokens, isEof t = false) ∧
    (∀ e ∈ errors, isScanErr e) := by
  obtain ⟨f1, f2, f3, f4, f5, f6, f7, -⟩ :=
    scanLoop_inv _ [] st errors hloop trivial (by simp) (by simp)
      (by simp) (le_refl 1) (by simp)
  exact ⟨f1, f2, f3, f4, f5, f6, f7⟩

/-- C1: the spec promises that reserved words in any ASCII casing scan to
keyword tokens and alphabetic lexemes to identifiers, but scan_token has no
arm for alphabetic characters at all: the keyword table try_as_keyword does
match "IF", "class" and "While" case-insensitively, yet scanning "IF" records
two "Unexpected character" errors and returns the aggregate instead of
Ok([If, Eof]). -/
theorem C1_keyword_scanning_missing :
    try_as_keyword ("IF") 0 1 = some (Token.If 0 1) ∧
    try_as_keyword ("class") 0 1 = some (Token.Class 0 1) ∧
    try_as_keyword ("While") 0 1 = some (Token.While 0 1) ∧
    scan_tokens (utf8 ("IF")) = some (Except.error (CrustCoreErr.Multi
      [CrustCoreErr.Scan 1 ("Unexpected character"),
       CrustCoreErr.Scan 1 ("Unexpected character")])) := by
  refine ⟨by decide, by decide, by decide, ?_⟩
  have hu : utf8 ("IF") = [73, 70] := by decide
  rw [hu]
  simp [scan_tokens, scanLoop, scan_token, advance, advance_if, char_at,
    peek, peek_next, is_at_end, commentLoop, stringBody, digitsLoop,
    take_number_literal, take_string_literal, finishNumber]

/-- C2: the spec lists the ampersand and pipe as single-character symbol
tokens, but scan_token has no arm for either: each falls through to the
default arm, records an "Unexpected character" error and the scan returns the
aggregate, never a BitAnd or BitOr token. -/
theorem C2_bit_symbols_missing :
    scan_tokens (utf8 ("&")) = some (Except.error (CrustCoreErr.Multi
      [CrustCoreErr.Scan 1 ("Unexpected character")])) ∧
    scan_tokens (utf8 ("|")) = some (Except.error (CrustCoreErr.Multi
      [CrustCoreErr.Scan 1 ("Unexpected character")])) := by
  constructor
  · have hu : utf8 ("&") = [38] := by decide
    rw [hu]
    simp [scan_tokens, scanLoop, scan_token, advance, advance_if, char_at,
      peek, peek_next, is_at_end, commentLoop, stringBody, digitsLoop,
      take_number_literal, take_string_literal, finishNumber]
  · have hu : utf8 ("|") = [124] := by decide
    rw [hu]
    simp [scan_tokens, scanLoop, scan_token, advance, advance_if, char_at,
      peek, peek_next, is_at_end, commentLoop, stringBody, digitsLoop,
      take_number_literal, take_string_literal, finishNumber]

/-- C3: the spec promises the scan never aborts on validly encoded text, but
char_at slices a one-byte range out of the source, which panics on any
non-ASCII code point: scanning the two-byte letter e-acute hits the panic
(modelled as none) instead of returning Ok or Err. -/
theorem C3_panic_on_multibyte : scan_tokens (utf8 ("é")) = none := by
  have hu : utf8 ("é") = [195, 169] := by decide
  rw [hu]
  simp [scan_tokens, scanLoop, scan_token, advance, advance_if, char_at,
    peek, peek_next, is_at_end, commentLoop, stringBody, digitsLoop,
    take_number_literal, take_string_literal, finishNumber]

/-- C4: scanning returns Err exactly when the pass recorded at least one
error; the Err value is the single aggregate of every recorded error in
order, and no tokens accompany it, while an error-free pass returns exactly
the gathered tokens; in particular the input with a dollar and an at sign
aggregates exactly two "Unexpected character" errors, both citing line 1. -/
theorem C4_error_aggregation :
    (∀ (source : List Nat) (st : ScanState) (errors : List CrustCoreErr),
      scanLoop
        { source := source, start := 0, current := 0, line := 1, tokens := [] }
        [] = some (st, errors) →
      (errors = [] → scan_tokens source =
        some (Except.ok (st.tokens ++ [Token.Eof st.current st.line]))) ∧
      (errors ≠ [] → scan_tokens source =
        some (Except.error (CrustCoreErr.Multi errors)))) ∧
    scan_tokens (utf8 ("$@")) = some (Except.error (CrustCoreErr.Multi
      [CrustCoreErr.Scan 1 ("Unexpected character"),
       CrustCoreErr.Scan 1 ("Unexpected character")])) := by
  constructor
  · intro source st errors hloop
    exact scan_tokens_run hloop
  · have hu : utf8 ("$@") = [36, 64] := by decide
    rw [hu]
    simp [scan_tokens, scanLoop, scan_token, advance, advance_if, char_at,
      peek, peek_next, is_at_end, commentLoop, stringBody, digitsLoop,
      take_number_literal, take_string_literal, finishNumber]

/-- Witness for C4 at the concrete input of a dollar then an at sign. -/
theorem C4_witness :
    scan_tokens [36, 64] = some (Except.error (CrustCoreErr.Multi
      [CrustCoreErr.Scan 1 ("Unexpected character"),
       CrustCoreErr.Scan 1 ("Unexpected character")])) :=
  (C4_error_aggregation.1 [36, 64] ⟨[36, 64], 1, 2, 1, []⟩
    [CrustCoreErr.Scan 1 ("Unexpected character"),
     CrustCoreErr.Scan 1 ("Unexpected character")]
    (by simp [scanLoop, scan_token, advance, advance_if, char_at, peek,
      peek_next, is_at_end, commentLoop, stringBody, digitsLoop,
      take_number_literal, take_string_literal, finishNumber])).2 (by simp)

/-- C5: every successful scan produces a token list that splits as a prefix
containing no end-of-input token followed by exactly one Eof token whose
offset is the byte length of the source and whose lexeme span is zero. -/
theorem C5_eof_terminator (source : List Nat) (ts : List Token)
    (h : scan_tokens source = some (Except.ok ts)) :
    ∃ pre line, ts = pre ++ [Token.Eof source.length line] ∧
      (∀ t ∈ pre, isEof t = false) ∧
      tokenOffset (Token.Eof source.length line) = source.length ∧
      tokenLength (Token.Eof source.length line) = 0 := by
  obtain ⟨st, errors, hloop, hcase⟩ := scan_tokens_some_inv h
  obtain ⟨f1, f2, f3, f4, f5, f6, f7⟩ := scan_run_facts hloop
  rcases hcase with ⟨he, hres⟩ | ⟨hne, hres⟩
  · injection hres with hts
    refine ⟨st.tokens, st.line, ?_, f6, rfl, rfl⟩
    rw [hts, f2]
  · exact absurd hres (by simp)

/-- Witness for C5 at the one-character input of a plus sign. -/
theorem C5_witness :
    ∃ pre line, [Token.Plus 0 1, Token.Eof 1 1] =
        pre ++ [Token.Eof 1 line] ∧
      (∀ t ∈ pre, isEof t = false) ∧
      tokenOffset (Token.Eof 1 line) = 1 ∧
      tokenLength (Token.Eof 1 line) = 0 :=
  C5_eof_terminator [43] [Token.Plus 0 1, Token.Eof 1 1]
    (by simp [scan_tokens, scanLoop, scan_token, advance, advance_if, char_at,
      peek, peek_next, is_at_end, commentLoop, stringBody, digitsLoop,
      take_number_literal, take_string_literal, finishNumber])

/-- C8: on success the token sequence is offset-monotonic (each token begins
at or after the end of the previous one, lexeme spans included) and every
token's offset and end stay within the source bounds. -/
theorem C8_offset_monotonic (source : List Nat) (ts : List Token)
    (h : scan_tokens source = some (Except.ok ts)) :
    tokensOrdered 0 ts ∧
    ∀ t ∈ ts, tokenOffset t + tokenLength t ≤ source.length := by
  obtain ⟨st, errors, hloop, hcase⟩ := scan_tokens_some_inv h
  obtain ⟨f1, f2, f3, f4, f5, f6, f7⟩ := scan_run_facts hloop
  rcases hcase with ⟨he, hres⟩ | ⟨hne, hres⟩
  · injection hres with hts
    subst hts
    constructor
    · refine tokensOrdered_append f4 (fun t ht => ?_) (Nat.zero_le _)
      have h1 := f5 t ht
      have h2 : tokenOffset (Token.Eof st.current st.line) = st.current := rfl
      omega
    · intro t ht
      rcases List.mem_append.mp ht with h1 | h2
      · have := f5 t h1; omega
      · rw [List.mem_singleton.mp h2]
        have h3 : tokenOffset (Token.Eof st.current st.line) +
            tokenLength (Token.Eof st.current st.line) = st.current := rfl
        omega
  · exact absurd hres (by simp)

/-- Witness for C8 at the one-character input of a plus sign. -/
theorem C8_witness :
    tokensOrdered 0 [Token.Plus 0 1, Token.Eof 1 1] ∧
    ∀ t ∈ [Token.Plus 0 1, Token.Eof 1 1],
      tokenOffset t + tokenLength t ≤ 1 :=
  C8_offset_monotonic [43] [Token.Plus 0 1, Token.Eof 1 1]
    (by simp [scan_tokens, scanLoop, scan_token, advance, advance_if, char_at,
      peek, peek_next, is_at_end, commentLoop, stringBody, digitsLoop,
      take_number_literal, take_string_literal, finishNumber])

/-- C9 counterexample: on the two-byte letter e-acute the scan panics, so it
does not produce a result (success or aggregated failure) as the claim
states for every finite input. -/
theorem C9_counterexample : ¬ ∃ res, scan_tokens (utf8 ("é")) = some res := by
  rintro ⟨res, hres⟩
  have hnone : scan_tokens (utf8 ("é")) = none := by
    have hu : utf8 ("é") = [195, 169] := by decide
    rw [hu]
    simp [scan_tokens, scanLoop, scan_token, advance, advance_if, char_at,
      peek, peek_next, is_at_end, commentLoop, stringBody, digitsLoop,
      take_number_literal, take_string_literal, finishNumber]
  rw [hnone] at hres
  exact absurd hres (by simp)

/-- C9 amended: every scan_token step strictly increases the cursor, so the
scan terminates on every finite input (the embedded loop is total by
well-founded recursion on the remaining length); and whenever no character
access panics -- in particular on every all-ASCII input -- scan_tokens
produces a result, success or aggregated failure. -/
theorem C9_terminates_amended :
    (∀ (st : ScanState) (errors : List CrustCoreErr) (st' : ScanState)
        (errors' : List CrustCoreErr), st.start ≤ st.current →
      scan_token st errors = some (st', errors') → st.current < st'.current) ∧
    (∀ source : List Nat, (∀ b ∈ source, b < 128) →
      ∃ res, scan_tokens source = some res) := by
  constructor
  · intro st errors st' errors' hss h
    exact (scan_token_step h hss).2.2.1
  · exact scan_tokens_total

/-- Witness for C9 at the one-character input of a plus sign. -/
theorem C9_witness :
    (⟨[43], 0, 0, 1, []⟩ : ScanState).current <
      (⟨[43], 0, 1, 1, [Token.Plus 0 1]⟩ : ScanState).current ∧
    ∃ res, scan_tokens [43] = some res :=
  ⟨C9_terminates_amended.1 ⟨[43], 0, 0, 1, []⟩ [] ⟨[43], 0, 1, 1, [Token.Plus 0 1]⟩ []
      (by dsimp only; omega)
      (by simp [scan_token, advance, advance_if, char_at, is_at_end]),
    C9_terminates_amended.2 [43] (by decide)⟩

/-- C10: whenever the scan returns an error it is one Multi aggregate whose
elements are all Scan errors carrying a line number of at least 1; no nested
Multi and no Runtime value ever appears. -/
theorem C10_error_shape (source : List Nat) (e : CrustCoreErr)
    (h : scan_tokens source = some (Except.error e)) :
    ∃ errs, e = CrustCoreErr.Multi errs ∧ errs ≠ [] ∧
      ∀ x ∈ errs, ∃ l m, x = CrustCoreErr.Scan l m ∧ 1 ≤ l := by
  obtain ⟨st, errors, hloop, hcase⟩ := scan_tokens_some_inv h
  obtain ⟨-, -, -, -, -, -, f7⟩ := scan_run_facts hloop
  rcases hcase with ⟨he, hres⟩ | ⟨hne, hres⟩
  · exact absurd hres (by simp)
  · injection hres with he2
    exact ⟨errors, he2, hne, f7⟩

/-- Witness for C10 at the concrete input of a dollar then an at sign. -/
theorem C10_witness :
    ∃ errs, CrustCoreErr.Multi
        [CrustCoreErr.Scan 1 ("Unexpected character"),
         CrustCoreErr.Scan 1 ("Unexpected character")] = CrustCoreErr.Multi errs ∧
      errs ≠ [] ∧
      ∀ x ∈ errs, ∃ l m, x = CrustCoreErr.Scan l m ∧ 1 ≤ l :=
  C10_error_shape [36, 64] _
    (by simp [scan_tokens, scanLoop, scan_token, advance, advance_if, char_at,
      peek, peek_next, is_at_end, commentLoop, stringBody, digitsLoop,
      take_number_literal, take_string_literal, finishNumber])

lemma char_at_some_inv {source : List Nat} {i : Nat} {c : Char}
    (h : char_at source i = some c) :
    ∃ b, source.get? i = some b ∧ b < 128 ∧ c = Char.ofNat b := by
  unfold char_at at h
  cases hg : source.get? i with
  | none => rw [hg] at h; simp at h
  | some b =>
      rw [hg] at h
      dsimp only at h
      by_cases hb : b < 128
      · rw [if_pos hb] at h
        exact ⟨b, rfl, hb, (Option.some.inj h).symm⟩
      · rw [if_neg hb] at h
        simp at h

lemma drop_cons_of_get? {l : List Nat} {n : Nat} {b : Nat}
    (hg : l.get? n = some b) : l.drop n = b :: l.drop (n + 1) := by
  have hlt : n < l.length := by
    by_contra hle
    rw [List.get?_eq_none.mpr (by omega)] at hg
    simp at hg
  rw [List.drop_eq_getElem_cons hlt]
  congr 1
  rw [List.get?_eq_getElem?] at hg
  exact (List.getElem?_eq_some.mp hg).2.symm ▸ rfl

lemma ofNat_eq_newline : ∀ b : Nat, b < 128 → ((Char.ofNat b = '\n') ↔ b = 10) := by
  decide

lemma ofNat_eq_quote : ∀ b : Nat, b < 128 → ((Char.ofNat b = '\"') ↔ b = 34) := by
  decide

lemma ofNat_eq_dot : ∀ b : Nat, b < 128 → ((Char.ofNat b = '.') ↔ b = 46) := by
  decide

lemma ofNat_isDigit : ∀ b : Nat, b < 128 →
    ((Char.ofNat b).isDigit = isDigitByte b) := by
  decide

lemma stringBody_run (st : ScanState) : ∀ st', stringBody st = some st' →
    (∀ b ∈ st.source, b < 128) → st.current ≤ st.source.length →
    (¬ 34 ∈ st.source.drop st.current) →
    st'.current = st.source.length ∧
    st'.line = st.line + (st.source.drop st.current).count 10 := by
  induction st using stringBody.induct with
  | case1 st hend =>
      intro st' h hascii hcur hnoq
      rw [stringBody, if_pos hend] at h
      obtain rfl := Option.some.inj h
      simp only [is_at_end, decide_eq_true_eq] at hend
      have hdrop : st.source.drop st.current = [] :=
        List.drop_eq_nil_of_le (by omega)
      rw [hdrop]
      simp
      omega
  | case2 st hend hc =>
      intro st' h hascii hcur hnoq
      have hlt : st.current < st.source.length := by
        simp [is_at_end] at hend; omega
      obtain ⟨c, hc2⟩ := char_at_total hlt hascii
      rw [hc] at hc2
      exact absurd hc2 (by simp)
  | case3 st hend hc =>
      intro st' h hascii hcur hnoq
      exfalso
      obtain ⟨b, hg, hb, hcb⟩ := char_at_some_inv hc
      have hb34 : b = 34 := (ofNat_eq_quote b hb).mp hcb.symm
      refine hnoq ?_
      rw [drop_cons_of_get? hg, hb34]
      exact List.mem_cons_self _ _
  | case4 st hend c hc hq ih =>
      intro st' h hascii hcur hnoq
      obtain ⟨b, hg, hb, hcb⟩ := char_at_some_inv hc
      subst hcb
      have hlt : st.current < st.source.length := by
        simp [is_at_end] at hend; omega
      have hdrop : st.source.drop st.current = b :: st.source.drop (st.current + 1) :=
        drop_cons_of_get? hg
      rw [stringBody, if_neg hend, hc] at h
      dsimp only at h
      rw [if_neg hq] at h
      obtain ⟨r1, r2⟩ := ih st' h hascii (by dsimp only; omega)
        (by dsimp only; rw [hdrop] at hnoq; intro hmem;
            exact hnoq (List.mem_cons_of_mem b hmem))
      dsimp only at r1 r2
      refine ⟨r1, ?_⟩
      rw [hdrop, List.count_cons]
      by_cases hb10 : b = 10
      · have hnl : Char.ofNat b = '\n' := (ofNat_eq_newline b hb).mpr hb10
        first
        | rw [dif_pos hnl] at r2
        | rw [if_pos hnl] at r2
        rw [r2, if_pos (by simp [hb10])]
        omega
      · have hnl : ¬ Char.ofNat b = '\n' :=
          fun hcn => hb10 ((ofNat_eq_newline b hb).mp hcn)
        first
        | rw [dif_neg hnl] at r2
        | rw [if_neg hnl] at r2
        rw [r2, if_neg (by simp [hb10])]
        omega

lemma sb_eval_anb : stringBody ⟨[34, 97, 10, 98], 0, 1, 1, []⟩ =
    some ⟨[34, 97, 10, 98], 0, 4, 2, []⟩ := by
  simp [stringBody, char_at, is_at_end]

lemma tsl_eval_anb : take_string_literal ⟨[34, 97, 10, 98], 0, 1, 1, []⟩ =
    some (Except.error (CrustCoreErr.Scan 2 ("Unterminated string literal")),
      ⟨[34, 97, 10, 98], 0, 4, 2, []⟩) := by
  unfold take_string_literal
  rw [sb_eval_anb]
  rfl

lemma st_eval_anb : scan_token ⟨[34, 97, 10, 98], 0, 0, 1, []⟩ [] =
    some (⟨[34, 97, 10, 98], 0, 4, 2, []⟩,
      [CrustCoreErr.Scan 2 ("Unterminated string literal")]) := by
  simp [scan_token, advance, char_at, is_at_end, tsl_eval_anb]

lemma loop_eval_anb : scanLoop ⟨[34, 97, 10, 98], 0, 0, 1, []⟩ [] =
    some (⟨[34, 97, 10, 98], 0, 4, 2, []⟩,
      [CrustCoreErr.Scan 2 ("Unterminated string literal")]) := by
  rw [scanLoop_eq_step (by decide) st_eval_anb]
  rw [scanLoop, if_pos (by decide)]

/-- C7 counterexample: an unterminated string whose body contains a newline
is reported at the line reached when input ran out (line 2), not at the line
of the opening quote (line 1) as the claim states. -/
theorem C7_counterexample :
    scan_tokens (utf8 ("\"a\nb")) = some (Except.error (CrustCoreErr.Multi
      [CrustCoreErr.Scan 2 ("Unterminated string literal")])) ∧
    scan_tokens (utf8 ("\"a\nb")) ≠ some (Except.error (CrustCoreErr.Multi
      [CrustCoreErr.Scan 1 ("Unterminated string literal")])) := by
  have hu : utf8 ("\"a\nb") = [34, 97, 10, 98] := by decide
  have heval : scan_tokens [34, 97, 10, 98] =
      some (Except.error (CrustCoreErr.Multi
        [CrustCoreErr.Scan 2 ("Unterminated string literal")])) := by
    unfold scan_tokens
    rw [show scanLoop
        { source := [34, 97, 10, 98], start := 0, current := 0, line := 1, tokens := [] }
        [] = some (⟨[34, 97, 10, 98], 0, 4, 2, []⟩,
          [CrustCoreErr.Scan 2 ("Unterminated string literal")]) from loop_eval_anb]
    rfl
  constructor
  · rw [hu]; exact heval
  · rw [hu, heval]; simp

lemma sb_eval_abc : stringBody ⟨[34, 97, 98, 99], 0, 1, 1, []⟩ =
    some ⟨[34, 97, 98, 99], 0, 4, 1, []⟩ := by
  simp [stringBody, char_at, is_at_end]

lemma tsl_eval_abc : take_string_literal ⟨[34, 97, 98, 99], 0, 1, 1, []⟩ =
    some (Except.error (CrustCoreErr.Scan 1 ("Unterminated string literal")),
      ⟨[34, 97, 98, 99], 0, 4, 1, []⟩) := by
  unfold take_string_literal
  rw [sb_eval_abc]
  rfl

lemma st_eval_abc : scan_token ⟨[34, 97, 98, 99], 0, 0, 1, []⟩ [] =
    some (⟨[34, 97, 98, 99], 0, 4, 1, []⟩,
      [CrustCoreErr.Scan 1 ("Unterminated string literal")]) := by
  simp [scan_token, advance, char_at, is_at_end, tsl_eval_abc]

lemma loop_eval_abc : scanLoop ⟨[34, 97, 98, 99], 0, 0, 1, []⟩ [] =
    some (⟨[34, 97, 98, 99], 0, 4, 1, []⟩,
      [CrustCoreErr.Scan 1 ("Unterminated string literal")]) := by
  rw [scanLoop_eq_step (by decide) st_eval_abc]
  rw [scanLoop, if_pos (by decide)]

/-- C7 amended: when a string literal started at an opening quote runs out of
input before a closing quote, exactly one "Unterminated string literal" error
is produced, citing the line reached when input was exhausted (the opening
line advanced once per newline in the unterminated body), and no String token
is emitted; the spec example with no newline in the body is still reported on
the opening line. -/
theorem C7_unterminated_amended :
    (∀ (st : ScanState) (r : Except CrustCoreErr Unit) (st' : ScanState),
      (∀ b ∈ st.source, b < 128) → st.current ≤ st.source.length →
      (¬ 34 ∈ st.source.drop st.current) →
      take_string_literal st = some (r, st') →
      r = Except.error (CrustCoreErr.Scan
        (st.line + (st.source.drop st.current).count 10)
        ("Unterminated string literal")) ∧
      st'.tokens = st.tokens) ∧
    scan_tokens (utf8 ("\"abc")) = some (Except.error (CrustCoreErr.Multi
      [CrustCoreErr.Scan 1 ("Unterminated string literal")])) := by
  constructor
  · intro st r st' hascii hcur hnoq h
    unfold take_string_literal at h
    obtain ⟨st1, hsb, h⟩ := Option.bind_eq_some.mp h
    obtain ⟨s1, s2, s3, s4, s5, s6⟩ := stringBody_spec st st1 hsb
    obtain ⟨r1, r2⟩ := stringBody_run st st1 hsb hascii hcur hnoq
    have hend : is_at_end st1 = true := by
      simp only [is_at_end, decide_eq_true_eq]
      rw [s1, r1]
    rw [if_pos hend] at h
    injection h with hp
    injection hp with h1 h2
    subst h1; subst h2
    exact ⟨by rw [r2], s3⟩
  · have hu : utf8 ("\"abc") = [34, 97, 98, 99] := by decide
    rw [hu]
    unfold scan_tokens
    rw [show scanLoop
        { source := [34, 97, 98, 99], start := 0, current := 0, line := 1, tokens := [] }
        [] = some (⟨[34, 97, 98, 99], 0, 4, 1, []⟩,
          [CrustCoreErr.Scan 1 ("Unterminated string literal")]) from loop_eval_abc]
    rfl

/-- Witness for the amended C7 at the state right after an opening quote with
the unterminated body "abc". -/
theorem C7_witness :
    Except.error (CrustCoreErr.Scan
        (1 + (([34, 97, 98, 99] : List Nat).drop 1).count 10)
        ("Unterminated string literal")) =
      (Except.error (CrustCoreErr.Scan 1 ("Unterminated string literal"))
        : Except CrustCoreErr Unit) ∧
    ([] : List Token) = ([] : List Token) := by
  have happ := C7_unterminated_amended.1 ⟨[34, 97, 98, 99], 0, 1, 1, []⟩
    (Except.error (CrustCoreErr.Scan 1 ("Unterminated string literal")))
    ⟨[34, 97, 98, 99], 0, 4, 1, []⟩ (by decide) (by decide) (by decide) tsl_eval_abc
  exact ⟨happ.1.symm, happ.2⟩

/-- Length of the maximal run of ASCII digit bytes starting at byte offset i. -/
def digitRunLen (source : List Nat) (i : Nat) : Nat :=
  ((source.drop i).takeWhile isDigitByte).length

lemma digitRunLen_le (source : List Nat) (i : Nat) :
    digitRunLen source i ≤ source.length - i := by
  unfold digitRunLen
  calc ((source.drop i).takeWhile isDigitByte).length
      ≤ (source.drop i).length := (List.takeWhile_prefix _).length_le
    _ = source.length - i := List.length_drop i source

lemma digitsLoop_run (st : ScanState) : ∀ st', digitsLoop st = some st' →
    (∀ b ∈ st.source, b < 128) →
    st'.current = st.current + digitRunLen st.source st.current := by
  induction st using digitsLoop.induct with
  | case1 st hend =>
      intro st' h hascii
      rw [digitsLoop, if_pos hend] at h
      obtain rfl := Option.some.inj h
      simp only [is_at_end, decide_eq_true_eq] at hend
      unfold digitRunLen
      rw [List.drop_eq_nil_of_le (by omega)]
      simp
  | case2 st hend hc =>
      intro st' h hascii
      have hlt : st.current < st.source.length := by
        simp [is_at_end] at hend; omega
      obtain ⟨c, hc2⟩ := char_at_total hlt hascii
      rw [hc] at hc2
      exact absurd hc2 (by simp)
  | case3 st hend c hc hd ih =>
      intro st' h hascii
      rw [digitsLoop, if_neg hend, hc] at h
      dsimp only at h
      rw [if_pos hd] at h
      have hr := ih st' h hascii
      dsimp only at hr
      obtain ⟨b, hg, hb, hcb⟩ := char_at_some_inv hc
      have hdb : isDigitByte b = true := by
        rw [← ofNat_isDigit b hb, ← hcb]
        exact hd
      unfold digitRunLen at hr ⊢
      rw [drop_cons_of_get? hg, List.takeWhile_cons_of_pos hdb, List.length_cons]
      omega
  | case4 st hend c hc hd =>
      intro st' h hascii
      rw [digitsLoop, if_neg hend, hc] at h
      dsimp only at h
      rw [if_neg hd] at h
      obtain rfl := Option.some.inj h
      obtain ⟨b, hg, hb, hcb⟩ := char_at_some_inv hc
      have hdb : isDigitByte b = false := by
        rw [← ofNat_isDigit b hb, ← hcb]
        simpa using hd
      unfold digitRunLen
      rw [drop_cons_of_get? hg, List.takeWhile_cons_of_neg (by simp [hdb])]
      simp

lemma peek_char {st : ScanState} {b : Nat} (hg : st.source.get? st.current = some b)
    (hb : b < 128) : peek st = some (Char.ofNat b) := by
  have hlt : st.current < st.source.length := by
    by_contra hle
    rw [List.get?_eq_none.mpr (by omega)] at hg
    simp at hg
  unfold peek
  rw [if_neg (by simp [is_at_end]; omega)]
  unfold char_at
  rw [hg]
  dsimp only
  rw [if_pos hb]

lemma peek_end {st : ScanState} (h : st.source.length ≤ st.current) :
    peek st = some (Char.ofNat 0) := by
  unfold peek
  rw [if_pos (by simp [is_at_end]; omega)]

lemma peek_next_char {st : ScanState} {b : Nat}
    (hg : st.source.get? (st.current + 1) = some b) (hb : b < 128) :
    peek_next st = some (Char.ofNat b) := by
  have hlt : st.current + 1 < st.source.length := by
    by_contra hle
    rw [List.get?_eq_none.mpr (by omega)] at hg
    simp at hg
  unfold peek_next
  rw [if_neg (by omega)]
  unfold char_at
  rw [hg]
  dsimp only
  rw [if_pos hb]

lemma peek_next_end {st : ScanState} (h : st.source.length ≤ st.current + 1) :
    peek_next st = some (Char.ofNat 0) := by
  unfold peek_next
  rw [if_pos h]

lemma finishNumber_float {st2 : ScanState} {r : Except CrustCoreErr Unit}
    {st' : ScanState}
    (hcontains : ((st2.source.drop st2.start).take
      (st2.current - st2.start)).contains 46 = true)
    (h : finishNumber st2 = some (r, st')) :
    r = Except.ok () ∧ ∃ v, st' = { st2 with tokens := st2.tokens ++
      [Token.Float st2.start (st2.current - st2.start) st2.line v] } := by
  unfold finishNumber at h
  rw [if_pos hcontains] at h
  dsimp only [f32_from_str] at h
  injection h with hp
  injection hp with h1 h2
  exact ⟨h1.symm, _, h2.symm⟩

lemma take_number_literal_run {st : ScanState} {r : Except CrustCoreErr Unit}
    {st' : ScanState}
    (hascii : ∀ b ∈ st.source, b < 128)
    (hstart : st.start + 1 = st.current)
    (hcur : st.current ≤ st.source.length)
    (hdig0 : ∃ b0, st.source.get? st.start = some b0 ∧ isDigitByte b0 = true)
    (h : take_number_literal st = some (r, st')) :
    ((st.source.get? (st.current + digitRunLen st.source st.current) = some 46 ∧
        ∃ b2, st.source.get? (st.current + digitRunLen st.source st.current + 1) =
          some b2 ∧ isDigitByte b2 = true) →
      st'.current = st.current + digitRunLen st.source st.current + 1 +
        digitRunLen st.source (st.current + digitRunLen st.source st.current + 1) ∧
      ∃ v, r = Except.ok () ∧ st'.tokens = st.tokens ++
        [Token.Float st.start (st'.current - st.start) st.line v]) ∧
    (¬(st.source.get? (st.current + digitRunLen st.source st.current) = some 46 ∧
        ∃ b2, st.source.get? (st.current + digitRunLen st.source st.current + 1) =
          some b2 ∧ isDigitByte b2 = true) →
      st'.current = st.current + digitRunLen st.source st.current ∧
      ((digitsVal ((st.source.drop st.start).take (st'.current - st.start)) ≤
          2147483647 ∧ r = Except.ok () ∧ st'.tokens = st.tokens ++
            [Token.Integer st.start (st'.current - st.start) st.line
              (digitsVal ((st.source.drop st.start).take (st'.current - st.start)))]) ∨
        (2147483647 < digitsVal ((st.source.drop st.start).take (st'.current - st.start)) ∧
          r = Except.error (CrustCoreErr.Scan st.line ("Invalid integer value")) ∧
          st'.tokens = st.tokens))) := by
  unfold take_number_literal at h
  obtain ⟨st1, hd1, h⟩ := Option.bind_eq_some.mp h
  obtain ⟨d1, d2, d3, d4, d5, d6⟩ := digitsLoop_spec st st1 hd1
  have hcur1 : st1.current = st.current + digitRunLen st.source st.current :=
    digitsLoop_run st st1 hd1 hascii
  have hrle := digitRunLen_le st.source st.current
  obtain ⟨c, hpk, h⟩ := Option.bind_eq_some.mp h
  have hIntCase : ∀ stm : ScanState, stm.source = st.source → stm.start = st.start →
      stm.line = st.line → stm.tokens = st.tokens →
      stm.current = st.current + digitRunLen st.source st.current →
      finishNumber stm = some (r, st') →
      st'.current = st.current + digitRunLen st.source st.current ∧
      ((digitsVal ((st.source.drop st.start).take (st'.current - st.start)) ≤
          2147483647 ∧ r = Except.ok () ∧ st'.tokens = st.tokens ++
            [Token.Integer st.start (st'.current - st.start) st.line
              (digitsVal ((st.source.drop st.start).take (st'.current - st.start)))]) ∨
        (2147483647 < digitsVal ((st.source.drop st.start).take (st'.current - st.start)) ∧
          r = Except.error (CrustCoreErr.Scan st.line ("Invalid integer value")) ∧
          st'.tokens = st.tokens)) := by
    intro stm m1 m2 m3 m4 m5 hf
    obtain ⟨b0, hg0, hd0⟩ := hdig0
    have hlit : (stm.source.drop stm.start).take (stm.current - stm.start) =
        b0 :: (st.source.drop st.current).takeWhile isDigitByte := by
      rw [m1, m2, m5]
      rw [drop_cons_of_get? hg0]
      have hsub : st.current + digitRunLen st.source st.current - st.start =
          digitRunLen st.source st.current + 1 := by omega
      rw [hsub, List.take_succ_cons]
      congr 1
      rw [hstart]
      unfold digitRunLen
      exact (List.prefix_iff_eq_take.mp (List.takeWhile_prefix _)).symm
    have hnotin : ¬ (46 : Nat) ∈
        (stm.source.drop stm.start).take (stm.current - stm.start) := by
      rw [hlit]
      intro hmem
      rcases List.mem_cons.mp hmem with h46 | h46
      · rw [← h46] at hd0
        exact absurd hd0 (by decide)
      · exact absurd (List.mem_takeWhile_imp h46) (by decide)
    have hcontains : ((stm.source.drop stm.start).take
        (stm.current - stm.start)).contains 46 = false := by
      simpa using hnotin
    have hlitEq : (st.source.drop st.start).take (stm.current - st.start) =
        (stm.source.drop stm.start).take (stm.current - stm.start) := by
      rw [m1, m2]
    unfold finishNumber at hf
    rw [if_neg (by rw [hcontains]; simp)] at hf
    unfold i32_from_str at hf
    by_cases hof : digitsVal ((stm.source.drop stm.start).take
        (stm.current - stm.start)) ≤ 2147483647
    · rw [if_pos hof] at hf
      dsimp only at hf
      injection hf with hp
      injection hp with h1 h2
      subst h1; subst h2
      refine ⟨by dsimp only; omega, Or.inl ⟨?_, rfl, ?_⟩⟩
      · dsimp only
        rw [hlitEq]
        exact hof
      · dsimp only
        rw [hlitEq, m4, m2, m3]
    · rw [if_neg hof] at hf
      dsimp only at hf
      injection hf with hp
      injection hp with h1 h2
      subst h1; subst h2
      refine ⟨by omega, Or.inr ⟨?_, by rw [m3], m4⟩⟩
      rw [hlitEq]
      omega
  cases hgr : st.source.get? st1.current with
  | none =>
      have hend1 : st.source.length ≤ st1.current := List.get?_eq_none.mp hgr
      have hc : c = Char.ofNat 0 := by
        have hp := @peek_end st1 (by rw [d1]; exact hend1)
        rw [hpk] at hp
        exact Option.some.inj hp
      rw [if_neg (by rw [hc]; decide)] at h
      have hmain := hIntCase st1 d1 d2 d4 d3 hcur1 h
      refine ⟨fun hG => ?_, fun _ => hmain⟩
      rw [← hcur1] at hG
      rw [hgr] at hG
      exact absurd hG.1 (by simp)
  | some b3 =>
      have hb3 : b3 < 128 := hascii b3 (List.get?_mem hgr)
      have hc : c = Char.ofNat b3 := by
        have hp := @peek_char st1 b3 (by rw [d1]; exact hgr) hb3
        rw [hpk] at hp
        exact Option.some.inj hp
      by_cases h46 : b3 = 46
      · rw [if_pos (by rw [hc, h46])] at h
        obtain ⟨d, hpn, h⟩ := Option.bind_eq_some.mp h
        cases hgr2 : st.source.get? (st1.current + 1) with
        | none =>
            have hd0 : d = Char.ofNat 0 := by
              have hp := @peek_next_end st1
                (by rw [d1]; exact List.get?_eq_none.mp hgr2)
              rw [hpn] at hp
              exact Option.some.inj hp
            rw [if_neg (by rw [hd0]; decide)] at h
            have hmain := hIntCase st1 d1 d2 d4 d3 hcur1 h
            refine ⟨fun hG => ?_, fun _ => hmain⟩
            obtain ⟨-, b2, hb2g, -⟩ := hG
            rw [← hcur1, hgr2] at hb2g
            exact absurd hb2g (by simp)
        | some b2 =>
            have hb2 : b2 < 128 := hascii b2 (List.get?_mem hgr2)
            have hd : d = Char.ofNat b2 := by
              have hp := @peek_next_char st1 b2 (by rw [d1]; exact hgr2) hb2
              rw [hpn] at hp
              exact Option.some.inj hp
            by_cases hdig2 : isDigitByte b2 = true
            · rw [if_pos (by rw [hd, ofNat_isDigit b2 hb2]; exact hdig2)] at h
              obtain ⟨⟨c2, sta⟩, hadv, h⟩ := Option.bind_eq_some.mp h
              dsimp only at h
              obtain ⟨a1, a2, a3, a4, a5, a6⟩ := advance_spec hadv
              obtain ⟨st2, hd2, h⟩ := Option.bind_eq_some.mp h
              obtain ⟨e1, e2, e3, e4, e5, e6⟩ := digitsLoop_spec sta st2 hd2
              have hcur2 : st2.current = sta.current +
                  digitRunLen sta.source sta.current :=
                digitsLoop_run sta st2 hd2 (by rw [a1, d1]; exact hascii)
              have hsrc2 : st2.source = st.source := by rw [e1, a1, d1]
              have hstart2 : st2.start = st.start := by rw [e2, a2, d2]
              have hline2 : st2.line = st.line := by rw [e4, a3, d4]
              have htok2 : st2.tokens = st.tokens := by rw [e3, a4, d3]
              have hcur2' : st2.current = st.current +
                  digitRunLen st.source st.current + 1 +
                  digitRunLen st.source
                    (st.current + digitRunLen st.source st.current + 1) := by
                rw [hcur2, a5, hcur1]
                have hsa : sta.source = st.source := by rw [a1, d1]
                rw [hsa]
              have hrle2 := digitRunLen_le st.source
                (st.current + digitRunLen st.source st.current + 1)
              -- the lexeme now contains the dot at absolute position st1.current
              have hcontains : ((st2.source.drop st2.start).take
                  (st2.current - st2.start)).contains 46 = true := by
                have hget : ((st2.source.drop st2.start).take
                    (st2.current - st2.start)).get? (st1.current - st.start) =
                    some 46 := by
                  rw [hsrc2, hstart2]
                  rw [List.get?_take (by omega)]
                  rw [List.get?_drop]
                  rw [show st.start + (st1.current - st.start) = st1.current
                    from by omega]
                  rw [hgr, h46]
                have hmem := List.get?_mem hget
                simpa using hmem
              obtain ⟨hr, v, hst⟩ := finishNumber_float hcontains h
              subst hr; subst hst
              constructor
              · intro hG
                refine ⟨by dsimp only; omega, v, rfl, ?_⟩
                dsimp only
                rw [htok2, hstart2, hline2]
              · intro hnG
                exact absurd ⟨by rw [← hcur1]; rw [hgr, h46],
                  b2, by rw [← hcur1]; exact hgr2, hdig2⟩ hnG
            · rw [if_neg (by rw [hd, ofNat_isDigit b2 hb2]; exact hdig2)] at h
              have hmain := hIntCase st1 d1 d2 d4 d3 hcur1 h
              refine ⟨fun hG => ?_, fun _ => hmain⟩
              obtain ⟨-, b2', hb2g, hb2d⟩ := hG
              rw [← hcur1, hgr2] at hb2g
              obtain rfl := Option.some.inj hb2g
              exact absurd hb2d hdig2
      · rw [if_neg (by
          rw [hc]
          exact fun hq => h46 ((ofNat_eq_dot b3 hb3).mp hq))] at h
        have hmain := hIntCase st1 d1 d2 d4 d3 hcur1 h
        refine ⟨fun hG => ?_, fun _ => hmain⟩
        rw [← hcur1, hgr] at hG
        obtain h463 := Option.some.inj hG.1
        exact absurd h463 h46

lemma dl_eval_25 : digitsLoop ⟨[50, 53, 46], 0, 1, 1, []⟩ =
    some ⟨[50, 53, 46], 0, 2, 1, []⟩ := by
  simp [digitsLoop, char_at, is_at_end]

lemma tnl_eval_25 : take_number_literal ⟨[50, 53, 46], 0, 1, 1, []⟩ =
    some (Except.ok (), ⟨[50, 53, 46], 0, 2, 1, [Token.Integer 0 2 1 25]⟩) := by
  unfold take_number_literal
  rw [dl_eval_25]
  rfl

lemma st_eval_25a : scan_token ⟨[50, 53, 46], 0, 0, 1, []⟩ [] =
    some (⟨[50, 53, 46], 0, 2, 1, [Token.Integer 0 2 1 25]⟩, []) := by
  simp [scan_token, advance, char_at, is_at_end, tnl_eval_25]

lemma st_eval_25b : scan_token ⟨[50, 53, 46], 2, 2, 1, [Token.Integer 0 2 1 25]⟩ [] =
    some (⟨[50, 53, 46], 2, 3, 1, [Token.Integer 0 2 1 25, Token.Dot 2 1]⟩, []) := by
  simp [scan_token, advance, char_at, is_at_end]

lemma loop_eval_25 : scanLoop ⟨[50, 53, 46], 0, 0, 1, []⟩ [] =
    some (⟨[50, 53, 46], 2, 3, 1, [Token.Integer 0 2 1 25, Token.Dot 2 1]⟩, []) := by
  rw [scanLoop_eq_step (by decide) st_eval_25a]
  rw [scanLoop_eq_step (by decide) st_eval_25b]
  rw [scanLoop, if_pos (by decide)]

/-- C6: number scanning consumes the maximal digit run; a following dot is
consumed only when the character after it is itself a digit, in which case a
further maximal digit run is consumed and a Float token is emitted, otherwise
the dot is left unconsumed and the digit run is parsed as a 32-bit integer
(emitting an Integer token, or an "Invalid integer value" error on overflow
past i32::MAX); in particular "25." scans to Ok([Integer(25), Dot, Eof]). -/
theorem C6_number_dot_disambiguation :
    (∀ (st : ScanState) (r : Except CrustCoreErr Unit) (st' : ScanState),
      (∀ b ∈ st.source, b < 128) →
      st.start + 1 = st.current → st.current ≤ st.source.length →
      (∃ b0, st.source.get? st.start = some b0 ∧ isDigitByte b0 = true) →
      take_number_literal st = some (r, st') →
      ((st.source.get? (st.current + digitRunLen st.source st.current) = some 46 ∧
          ∃ b2, st.source.get? (st.current + digitRunLen st.source st.current + 1) =
            some b2 ∧ isDigitByte b2 = true) →
        st'.current = st.current + digitRunLen st.source st.current + 1 +
          digitRunLen st.source (st.current + digitRunLen st.source st.current + 1) ∧
        ∃ v, r = Except.ok () ∧ st'.tokens = st.tokens ++
          [Token.Float st.start (st'.current - st.start) st.line v]) ∧
      (¬(st.source.get? (st.current + digitRunLen st.source st.current) = some 46 ∧
          ∃ b2, st.source.get? (st.current + digitRunLen st.source st.current + 1) =
            some b2 ∧ isDigitByte b2 = true) →
        st'.current = st.current + digitRunLen st.source st.current ∧
        ((digitsVal ((st.source.drop st.start).take (st'.current - st.start)) ≤
            2147483647 ∧ r = Except.ok () ∧ st'.tokens = st.tokens ++
              [Token.Integer st.start (st'.current - st.start) st.line
                (digitsVal ((st.source.drop st.start).take (st'.current - st.start)))]) ∨
          (2147483647 < digitsVal ((st.source.drop st.start).take
              (st'.current - st.start)) ∧
            r = Except.error (CrustCoreErr.Scan st.line ("Invalid integer value")) ∧
            st'.tokens = st.tokens)))) ∧
    scan_tokens (utf8 ("25.")) = some (Except.ok
      [Token.Integer 0 2 1 25, Token.Dot 2 1, Token.Eof 3 1]) := by
  constructor
  · intro st r st' hascii hstart hcur hdig0 h
    exact take_number_literal_run hascii hstart hcur hdig0 h
  · have hu : utf8 ("25.") = [50, 53, 46] := by decide
    rw [hu]
    unfold scan_tokens
    rw [show scanLoop
        { source := [50, 53, 46], start := 0, current := 0, line := 1, tokens := [] }
        [] = some (⟨[50, 53, 46], 2, 3, 1,
          [Token.Integer 0 2 1 25, Token.Dot 2 1]⟩, []) from loop_eval_25]
    rfl

/-- Witness for C6 at the state reached after consuming the first digit of
"25.": the dot is not followed by a digit, so the dot is not consumed and an
Integer token for 25 is emitted. -/
theorem C6_witness :
    ((([50, 53, 46] : List Nat).get? (1 + digitRunLen [50, 53, 46] 1) = some 46 ∧
        ∃ b2, ([50, 53, 46] : List Nat).get? (1 + digitRunLen [50, 53, 46] 1 + 1) =
          some b2 ∧ isDigitByte b2 = true) →
      (⟨[50, 53, 46], 0, 2, 1, [Token.Integer 0 2 1 25]⟩ : ScanState).current =
        1 + digitRunLen [50, 53, 46] 1 + 1 +
          digitRunLen [50, 53, 46] (1 + digitRunLen [50, 53, 46] 1 + 1) ∧
      ∃ v, (Except.ok () : Except CrustCoreErr Unit) = Except.ok () ∧
        (⟨[50, 53, 46], 0, 2, 1, [Token.Integer 0 2 1 25]⟩ : ScanState).tokens =
          [] ++ [Token.Float 0
            ((⟨[50, 53, 46], 0, 2, 1, [Token.Integer 0 2 1 25]⟩ : ScanState).current - 0)
            1 v]) ∧
    (¬(([50, 53, 46] : List Nat).get? (1 + digitRunLen [50, 53, 46] 1) = some 46 ∧
        ∃ b2, ([50, 53, 46] : List Nat).get? (1 + digitRunLen [50, 53, 46] 1 + 1) =
          some b2 ∧ isDigitByte b2 = true) →
      (⟨[50, 53, 46], 0, 2, 1, [Token.Integer 0 2 1 25]⟩ : ScanState).current =
        1 + digitRunLen [50, 53, 46] 1 ∧
      ((digitsVal ((([50, 53, 46] : List Nat).drop 0).take
          ((⟨[50, 53, 46], 0, 2, 1, [Token.Integer 0 2 1 25]⟩ : ScanState).current - 0)) ≤
            2147483647 ∧
          (Except.ok () : Except CrustCoreErr Unit) = Except.ok () ∧
          (⟨[50, 53, 46], 0, 2, 1, [Token.Integer 0 2 1 25]⟩ : ScanState).tokens =
            [] ++ [Token.Integer 0
              ((⟨[50, 53, 46], 0, 2, 1, [Token.Integer 0 2 1 25]⟩ : ScanState).current - 0)
              1 (digitsVal ((([50, 53, 46] : List Nat).drop 0).take
                ((⟨[50, 53, 46], 0, 2, 1, [Token.Integer 0 2 1 25]⟩ : ScanState).current - 0)))]) ∨
        (2147483647 < digitsVal ((([50, 53, 46] : List Nat).drop 0).take
            ((⟨[50, 53, 46], 0, 2, 1, [Token.Integer 0 2 1 25]⟩ : ScanState).current - 0)) ∧
          (Except.ok () : Except CrustCoreErr Unit) =
            Except.error (CrustCoreErr.Scan 1 ("Invalid integer value")) ∧
          (⟨[50, 53, 46], 0, 2, 1, [Token.Integer 0 2 1 25]⟩ : ScanState).tokens = []))) :=
  C6_number_dot_disambiguation.1 ⟨[50, 53, 46], 0, 1, 1, []⟩ (Except.ok ())
    ⟨[50, 53, 46], 0, 2, 1, [Token.Integer 0 2 1 25]⟩
    (by decide) (by decide) (by decide) (by decide) tnl_eval_25

end Crust
